import Mathlib

/-! auth-go: the refresh-token lifecycle.

A shallow embedding of `internal/service/service.go` and
`internal/storage/postgresql/postgresql.go`.

* Go strings and byte slices are lists of byte values (`List Nat`).
* `time.Time` and `time.Duration` are integers (nanoseconds).
* The `refresh_tokens` table is the list of its rows.
* Every source of nondeterminism of one service call (clock readings, random
  bytes, generated identifiers, driver and library failures) is a field of `Env`.
* The library functions the service calls (`encoding/base64`, `strings.Split`,
  `github.com/google/uuid`, `bcrypt`) are modelled in the first sections.
-/

namespace AuthGo

/-- A Go string or byte slice. -/
abbrev Str := List Nat

/-! ## encoding/base64, `URLEncoding` (padded, not strict) -/

/-- The alphabet of `base64.URLEncoding`: `A-Z a-z 0-9 - _`. -/
def encodeURL (i : Nat) : Nat :=
  if i < 26 then 65 + i
  else if i < 52 then 97 + (i - 26)
  else if i < 62 then 48 + (i - 52)
  else if i = 62 then 45
  else 95

/-- The decode map of `base64.URLEncoding`; `none` stands for the entry `0xff`. -/
def decodeMap (c : Nat) : Option Nat :=
  if 65 ≤ c ∧ c ≤ 90 then some (c - 65)
  else if 97 ≤ c ∧ c ≤ 122 then some (c - 97 + 26)
  else if 48 ≤ c ∧ c ≤ 57 then some (c - 48 + 52)
  else if c = 45 then some 62
  else if c = 95 then some 63
  else none

/-- The padding character `=`. -/
def padChar : Nat := 61

/-- `(*Encoding).EncodeToString`: three bytes become four characters, a
remainder of one or two bytes is padded with `=`. -/
def EncodeToString : Str → Str
  | [] => []
  | [a] =>
    let val := a * 65536
    [encodeURL (val / 262144 % 64), encodeURL (val / 4096 % 64), padChar, padChar]
  | [a, b] =>
    let val := a * 65536 + b * 256
    [encodeURL (val / 262144 % 64), encodeURL (val / 4096 % 64),
      encodeURL (val / 64 % 64), padChar]
  | a :: b :: c :: rest =>
    let val := a * 65536 + b * 256 + c
    encodeURL (val / 262144 % 64) :: encodeURL (val / 4096 % 64) ::
      encodeURL (val / 64 % 64) :: encodeURL (val % 64) :: EncodeToString rest

/-- The bytes a quantum yields: `dbuf` holds `dlen` six-bit values, of which
`dlen - 1` bytes are produced (the unused low bits are not checked, the
encoding is not strict). -/
def quantumBytes (dbuf : List Nat) : List Nat :=
  let val := dbuf.getD 0 0 * 262144 + dbuf.getD 1 0 * 4096 + dbuf.getD 2 0 * 64 + dbuf.getD 3 0
  ([val / 65536 % 256, val / 256 % 256, val % 256]).take (dbuf.length - 1)

/-- Skips `\r` and `\n`. -/
def skipNewlines : Str → Str
  | [] => []
  | c :: cs => if c = 10 ∨ c = 13 then skipNewlines cs else c :: cs

/-- The loop of `(*Encoding).Decode` over `decodeQuantum`: `dbuf` is the part of
the current quantum read so far. `none` is a `CorruptInputError`. -/
def decodeLoop : List Nat → Str → Option Str
  | dbuf, [] => if dbuf.length = 0 then some [] else none
  | dbuf, c :: cs =>
    match decodeMap c with
    | some out =>
      if dbuf.length = 3 then
        match decodeLoop [] cs with
        | some r => some (quantumBytes (dbuf ++ [out]) ++ r)
        | none => none
      else decodeLoop (dbuf ++ [out]) cs
    | none =>
      if c = 10 ∨ c = 13 then decodeLoop dbuf cs
      else if c ≠ padChar then none
      else if dbuf.length < 2 then none
      else if dbuf.length = 2 then
        match skipNewlines cs with
        | [] => none
        | d :: ds =>
          if d ≠ padChar then none
          else if skipNewlines ds ≠ [] then none
          else some (quantumBytes dbuf)
      else
        if skipNewlines cs ≠ [] then none
        else some (quantumBytes dbuf)

/-- `(*Encoding).DecodeString`. -/
def DecodeString (s : Str) : Option Str := decodeLoop [] s

/-- The characters of the alphabet: those the decode map has a value for. -/
def Alphabet (l : Str) : Prop := ∀ c ∈ l, ∃ v, decodeMap c = some v

/-- The value of a character of the alphabet. -/
def sextet (c : Nat) : Nat := (decodeMap c).getD 0

/-- What a text of whole quanta of alphabet characters decodes to. -/
def decodeClean : Str → Str
  | c0 :: c1 :: c2 :: c3 :: rest =>
    quantumBytes [sextet c0, sextet c1, sextet c2, sextet c3] ++ decodeClean rest
  | _ => []

/-! ## strings.Split -/

/-- `strings.Split(s, sep)` for a one-byte separator. -/
def Split (sep : Nat) : Str → List Str
  | [] => [[]]
  | c :: cs =>
    if c = sep then [] :: Split sep cs
    else
      match Split sep cs with
      | p :: ps => (c :: p) :: ps
      | [] => [[c]]

/-! ## github.com/google/uuid -/

/-- A `uuid.UUID`: sixteen bytes. -/
abbrev UUID := List Nat

/-- A well-formed identifier value: sixteen bytes. -/
def UUID.WF (u : UUID) : Prop := u.length = 16 ∧ ∀ b ∈ u, b < 256

instance (u : UUID) : Decidable (UUID.WF u) := by unfold UUID.WF; infer_instance

/-- The lower-case hexadecimal digit of a nibble. -/
def hexDigit (n : Nat) : Nat := if n < 10 then 48 + n else 87 + n

/-- `hex.Encode`. -/
def hexEncode : List Nat → Str
  | [] => []
  | b :: bs => hexDigit (b / 16) :: hexDigit (b % 16) :: hexEncode bs

/-- `UUID.String`: `xxxxxxxx-xxxx-xxxx-xxxx-xxxxxxxxxxxx`. -/
def UUID.String (u : UUID) : Str :=
  hexEncode (u.take 4) ++ [45] ++ hexEncode ((u.drop 4).take 2) ++ [45] ++
    hexEncode ((u.drop 6).take 2) ++ [45] ++ hexEncode ((u.drop 8).take 2) ++ [45] ++
    hexEncode (u.drop 10)

/-- The table `xvalues`: the value of a hexadecimal digit of either case. -/
def xvalue (c : Nat) : Option Nat :=
  if 48 ≤ c ∧ c ≤ 57 then some (c - 48)
  else if 65 ≤ c ∧ c ≤ 70 then some (c - 55)
  else if 97 ≤ c ∧ c ≤ 102 then some (c - 87)
  else none

/-- `xtob`: two hexadecimal digits to a byte. -/
def xtob (x1 x2 : Nat) : Option Nat :=
  match xvalue x1, xvalue x2 with
  | some b1, some b2 => some (b1 * 16 + b2)
  | _, _ => none

/-- The byte at each listed offset of `s`, read as two hexadecimal digits. -/
def xtobAt (s : Str) : List Nat → Option (List Nat)
  | [] => some []
  | x :: xs =>
    match xtob (s.getD x 0) (s.getD (x + 1) 0), xtobAt s xs with
    | some v, some vs => some (v :: vs)
    | _, _ => none

/-- The tail of `uuid.Parse` for the hyphenated form. -/
def parseHyphenated (s : Str) : Option UUID :=
  if s.getD 8 0 ≠ 45 ∨ s.getD 13 0 ≠ 45 ∨ s.getD 18 0 ≠ 45 ∨ s.getD 23 0 ≠ 45 then none
  else xtobAt s [0, 2, 4, 6, 9, 11, 14, 16, 19, 21, 24, 26, 28, 30, 32, 34]

/-- ASCII lower-casing, for `strings.EqualFold` against `urn:uuid:`. -/
def toLowerASCII (c : Nat) : Nat := if 65 ≤ c ∧ c ≤ 90 then c + 32 else c

/-- The bytes of `urn:uuid:`. -/
def urnPrefix : Str := [117, 114, 110, 58, 117, 117, 105, 100, 58]

/-- `uuid.Parse`: accepts the hyphenated form, the same with a `urn:uuid:`
prefix or inside one leading and one trailing byte, and 32 bare digits. -/
def Parse (s : Str) : Option UUID :=
  if s.length = 36 then parseHyphenated s
  else if s.length = 36 + 9 then
    if (s.take 9).map toLowerASCII ≠ urnPrefix then none
    else parseHyphenated (s.drop 9)
  else if s.length = 36 + 2 then parseHyphenated (s.drop 1)
  else if s.length = 32 then
    xtobAt s [0, 2, 4, 6, 8, 10, 12, 14, 16, 18, 20, 22, 24, 26, 28, 30]
  else none

/-! ## bcrypt, idealised

A hash is represented by the salt and the password it was generated from, and
comparison accepts exactly that password. -/

/-- The result of `bcrypt.GenerateFromPassword`. -/
structure BcryptHash where
  salt : Str
  password : Str
deriving DecidableEq, Repr

/-- `bcrypt.CompareHashAndPassword`; `true` is the `nil` error. -/
def CompareHashAndPassword (hash : BcryptHash) (password : Str) : Bool :=
  decide (hash.password = password)

/-! ## internal/storage/postgresql -/

/-- The errors the service and the storage return. -/
inductive Err where
  | ErrInvalidToken
  | ErrTokenExpired
  | ErrTokenUsed
  | ErrIPMismatch
  /-- The value `errors.New("refresh token not found")` of the storage. -/
  | refreshTokenNotFound
  /-- An error of `database/sql` or of the driver (connectivity, constraint). -/
  | driver
  /-- An error of `rand.Read`. -/
  | randRead
  /-- An error of `bcrypt.GenerateFromPassword`. -/
  | bcrypt
  /-- An error of `SignedString`. -/
  | signing
deriving DecidableEq, Repr

instance [DecidableEq ε] [DecidableEq α] : DecidableEq (Except ε α)
  | .ok a, .ok b =>
    if h : a = b then isTrue (by rw [h]) else isFalse (by intro e; cases e; exact h rfl)
  | .error a, .error b =>
    if h : a = b then isTrue (by rw [h]) else isFalse (by intro e; cases e; exact h rfl)
  | .ok _, .error _ => isFalse (by intro e; cases e)
  | .error _, .ok _ => isFalse (by intro e; cases e)

/-- `postgresql.RefreshToken`, a row of `refresh_tokens`. -/
structure RefreshToken where
  ID : UUID
  UserID : UUID
  TokenHash : BcryptHash
  IssuedAt : Int
  ExpiresAt : Int
  IssuedIP : Str
  IsUsed : Bool
  CreatedAt : Int
deriving DecidableEq, Repr

/-- The table `refresh_tokens`; `id` is its primary key. -/
abbrev Storage := List RefreshToken

/-- `Storage.SaveRefreshToken`: the `INSERT`. `dbErr` says the driver fails,
`dbNow` is `CURRENT_TIMESTAMP`. A row with the same `id` violates the primary
key. The columns `is_used` and `created_at` take their defaults. -/
def SaveRefreshToken (db : Storage) (dbErr : Bool) (dbNow : Int) (token : RefreshToken) :
    Except Err Unit × Storage :=
  if dbErr then (.error .driver, db)
  else if db.any (fun r => decide (r.ID = token.ID)) then (.error .driver, db)
  else (.ok (), db ++ [{ token with IsUsed := false, CreatedAt := dbNow }])

/-- `Storage.GetRefreshToken`: the `SELECT ... WHERE id = $1`. -/
def GetRefreshToken (db : Storage) (dbErr : Bool) (tokenID : UUID) : Except Err RefreshToken :=
  if dbErr then .error .driver
  else
    match db.find? (fun r => decide (r.ID = tokenID)) with
    | none => .error .refreshTokenNotFound
    | some token => .ok token

/-- The table after `UPDATE refresh_tokens SET is_used = true WHERE id = $1`. -/
def markedRows (db : Storage) (tokenID : UUID) : Storage :=
  db.map (fun r => if r.ID = tokenID then { r with IsUsed := true } else r)

/-- `Storage.MarkTokenAsUsed`: the `UPDATE`, then the check of `RowsAffected`. -/
def MarkTokenAsUsed (db : Storage) (dbErr : Bool) (tokenID : UUID) : Except Err Unit × Storage :=
  if dbErr then (.error .driver, db)
  else
    let rows := db.countP (fun r => decide (r.ID = tokenID))
    let db1 := markedRows db tokenID
    if rows = 0 then (.error .refreshTokenNotFound, db1)
    else (.ok (), db1)

/-! ## internal/service -/

/-- `service.Claims`, with the registered claims it sets. -/
structure Claims where
  ExpiresAt : Int
  IssuedAt : Int
  NotBefore : Int
  ID : Str
  UserID : Str
  IP : Str
deriving DecidableEq, Repr

/-- A token signed with `jwt.SigningMethodHS512`, represented by what was signed
and the key. -/
structure AccessToken where
  claims : Claims
  key : Str
deriving DecidableEq, Repr

/-- `service.TokenPair`. -/
structure TokenPair where
  AccessToken : AccessToken
  RefreshToken : Str
deriving DecidableEq, Repr

/-- `service.Service`: the configuration fields. The storage is part of
`State`, the email service is the `outbox` of `State`. -/
structure Service where
  jwtKey : Str
  accessTTL : Int
  refreshTTL : Int
deriving DecidableEq, Repr

/-- `service.New`, without the storage and the email service. -/
def New (jwtKey : Str) (accessTTL refreshTTL : Int) : Service :=
  { jwtKey := jwtKey, accessTTL := accessTTL, refreshTTL := refreshTTL }

/-- What the service can change: the table, and the calls of
`EmailService.SendIPChangeWarning` made so far as `(userID, oldIP, newIP)`. -/
structure State where
  storage : Storage
  outbox : List (UUID × Str × Str)
deriving DecidableEq, Repr

/-- The inputs of one service call that the service does not control. -/
structure Env where
  /-- The driver fails in `GetRefreshToken`. -/
  getErr : Bool
  /-- The reading of `time.Now()` in `RefreshTokens`. -/
  now : Int
  /-- `SendIPChangeWarning` returns an error. -/
  mailErr : Bool
  /-- The driver fails in `MarkTokenAsUsed`. -/
  markErr : Bool
  /-- The reading of `time.Now()` in `createAccessToken`. -/
  accessNow : Int
  /-- The `uuid.New()` of `createAccessToken`. -/
  jti : UUID
  /-- `SignedString` fails. -/
  signErr : Bool
  /-- What `rand.Read` wrote, `none` when it fails. -/
  randBytes : Option Str
  /-- The salt of `bcrypt.GenerateFromPassword`, `none` when it fails. -/
  salt : Option Str
  /-- The `uuid.New()` of `createRefreshToken`. -/
  newID : UUID
  /-- The reading of `time.Now()` for `IssuedAt`. -/
  issuedNow : Int
  /-- The reading of `time.Now()` for `ExpiresAt`. -/
  expiresNow : Int
  /-- The driver fails in `SaveRefreshToken`. -/
  saveErr : Bool
  /-- The `CURRENT_TIMESTAMP` of the insert. -/
  dbNow : Int
deriving DecidableEq, Repr

/-- What the libraries guarantee about their results: `rand.Read` fills the 32
bytes, `uuid.New` returns sixteen bytes. -/
def Env.WF (env : Env) : Prop :=
  env.newID.WF ∧
    match env.randBytes with
    | some tokenBytes => tokenBytes.length = 32 ∧ ∀ b ∈ tokenBytes, b < 256
    | none => True

instance (env : Env) : Decidable env.WF := by
  unfold Env.WF
  cases env.randBytes <;> infer_instance

/-- `jwt.NewNumericDate`: the time truncated to the second. -/
def NewNumericDate (t : Int) : Int := t - t % 1000000000

/-- `Service.createAccessToken`. -/
def createAccessToken (s : Service) (env : Env) (userID : UUID) (ip : Str) :
    Except Err AccessToken :=
  let now := env.accessNow
  let claims : Claims :=
    { ExpiresAt := NewNumericDate (now + s.accessTTL)
      IssuedAt := NewNumericDate now
      NotBefore := NewNumericDate now
      ID := env.jti.String
      UserID := userID.String
      IP := ip }
  if env.signErr then .error .signing else .ok { claims := claims, key := s.jwtKey }

/-- `Service.createRefreshToken`. -/
def createRefreshToken (s : Service) (env : Env) (st : State) (userID : UUID) (ip : Str) :
    Except Err Str × State :=
  match env.randBytes with
  | none => (.error .randRead, st)
  | some tokenBytes =>
    let refreshStr := EncodeToString tokenBytes
    match env.salt with
    | none => (.error .bcrypt, st)
    | some salt =>
      let hash : BcryptHash := { salt := salt, password := refreshStr }
      let token : RefreshToken :=
        { ID := env.newID
          UserID := userID
          TokenHash := hash
          IssuedAt := env.issuedNow
          ExpiresAt := env.expiresNow + s.refreshTTL
          IssuedIP := ip
          IsUsed := false
          CreatedAt := 0 }
      match SaveRefreshToken st.storage env.saveErr env.dbNow token with
      | (.error err, db) => (.error err, { st with storage := db })
      | (.ok _, db) =>
        let tokenData := token.ID.String ++ [58] ++ refreshStr
        (.ok (EncodeToString tokenData), { st with storage := db })

/-- `Service.CreateTokenPair`. -/
def CreateTokenPair (s : Service) (env : Env) (st : State) (userID : UUID) (ip : Str) :
    Except Err TokenPair × State :=
  match createAccessToken s env userID ip with
  | .error err => (.error err, st)
  | .ok accessToken =>
    match createRefreshToken s env st userID ip with
    | (.error err, st1) => (.error err, st1)
    | (.ok refreshToken, st1) =>
      (.ok { AccessToken := accessToken, RefreshToken := refreshToken }, st1)

/-- `Service.RefreshTokens`. -/
def RefreshTokens (s : Service) (env : Env) (st : State) (refreshToken ip : Str) :
    Except Err TokenPair × State :=
  match DecodeString refreshToken with
  | none => (.error .ErrInvalidToken, st)
  | some tokenData =>
    let parts := Split 58 tokenData
    if parts.length ≠ 2 then (.error .ErrInvalidToken, st)
    else
      match Parse (parts.getD 0 []) with
      | none => (.error .ErrInvalidToken, st)
      | some tokenID =>
        match GetRefreshToken st.storage env.getErr tokenID with
        | .error err => (.error err, st)
        | .ok storedToken =>
          if env.now > storedToken.ExpiresAt then (.error .ErrTokenExpired, st)
          else if storedToken.IsUsed then (.error .ErrTokenUsed, st)
          else if ¬ CompareHashAndPassword storedToken.TokenHash (parts.getD 1 []) then
            (.error .ErrInvalidToken, st)
          else
            let st1 : State :=
              if ip ≠ storedToken.IssuedIP then
                { st with outbox := st.outbox ++ [(storedToken.UserID, storedToken.IssuedIP, ip)] }
              else st
            match MarkTokenAsUsed st1.storage env.markErr tokenID with
            | (.error err, db) => (.error err, { st1 with storage := db })
            | (.ok _, db) => CreateTokenPair s env { st1 with storage := db } storedToken.UserID ip

/-- The first three steps of `RefreshTokens` (base64url decoding, the split on
`:` into exactly two parts, the parse of the first part): the identifier and
the secret text a refresh-token string carries. -/
def decodeRefreshToken (refreshToken : Str) : Option (UUID × Str) :=
  match DecodeString refreshToken with
  | none => none
  | some tokenData =>
    let parts := Split 58 tokenData
    if parts.length ≠ 2 then none
    else
      match Parse (parts.getD 0 []) with
      | none => none
      | some tokenID => some (tokenID, parts.getD 1 [])

/-- One call of the service, with its inputs. -/
inductive Call where
  | create (env : Env) (userID : UUID) (ip : Str)
  | refresh (env : Env) (refreshToken : Str) (ip : Str)

/-- The state after one call. -/
def step (s : Service) (st : State) : Call → State
  | .create env userID ip => (CreateTokenPair s env st userID ip).2
  | .refresh env refreshToken ip => (RefreshTokens s env st refreshToken ip).2

/-- The state after a sequence of calls, one after the other. -/
def run (s : Service) (st : State) (calls : List Call) : State :=
  calls.foldl (step s) st

/-- The table `db1` keeps every row of `db`: a lookup that found `r` in `db`
finds in `db1` the same row, possibly with the used flag set since. -/
def Keeps (db db1 : Storage) : Prop :=
  ∀ id r, db.find? (fun x => decide (x.ID = id)) = some r →
    ∃ r1, db1.find? (fun x => decide (x.ID = id)) = some r1 ∧
      (r1 = r ∨ r1 = { r with IsUsed := true })

/-- Two strings of the same length that differ in exactly one byte. -/
def OneByteDiff (t t1 : Str) : Prop :=
  ∃ a c c1 b, t = a ++ c :: b ∧ t1 = a ++ c1 :: b ∧ c ≠ c1

/-! ## Concrete inputs -/

/-- A service with a refresh TTL of 3600. -/
def exService : Service := New [107] 900 3600

/-- A service with a refresh TTL of zero, as `REFRESH_TOKEN_TTL=0s` gives. -/
def exZeroTTL : Service := New [107] 900 0

/-- A service with a negative refresh TTL, as `REFRESH_TOKEN_TTL=-3600ns` gives. -/
def exNegativeTTL : Service := New [107] 900 (-3600)

/-- A user identifier. -/
def exUser : UUID := [17, 17, 17, 17, 17, 17, 17, 17, 17, 17, 17, 17, 17, 17, 17, 17]

/-- The identifier `ab010203-0405-4607-8809-0a0b0c0d0e0f`. -/
def exID : UUID := [171, 1, 2, 3, 4, 5, 70, 7, 136, 9, 10, 11, 12, 13, 14, 15]

/-- The identifier `cd010203-0405-4607-8809-0a0b0c0d0e0f`. -/
def exID2 : UUID := [205, 1, 2, 3, 4, 5, 70, 7, 136, 9, 10, 11, 12, 13, 14, 15]

/-- The inputs of a call at time 10 that generates `exID` and the random bytes
`07 07 ... 07`. -/
def exEnv : Env :=
  { getErr := false, now := 10, mailErr := false, markErr := false, accessNow := 10,
    jti := [1, 1, 1, 1, 1, 1, 65, 1, 129, 1, 1, 1, 1, 1, 1, 1], signErr := false,
    randBytes := some (List.replicate 32 7), salt := some [5],
    newID := exID, issuedNow := 10, expiresNow := 10, saveErr := false, dbNow := 11 }

/-- The inputs of a call at time 50 that generates `exID2` and the random bytes
`09 09 ... 09`. -/
def exEnv2 : Env :=
  { exEnv with now := 50, accessNow := 50, randBytes := some (List.replicate 32 9),
               newID := exID2, issuedNow := 50, expiresNow := 50, dbNow := 51 }

/-- The inputs of `exEnv` with the second clock reading of `createRefreshToken`
one tick after the first. -/
def exEnvTick : Env := { exEnv with expiresNow := 11 }

/-- The inputs of a call at time 9000, after the expiry of what `exEnv` issued. -/
def exEnvLate : Env := { exEnv2 with now := 9000 }

/-- The client addresses `1.1.1.1` and `2.2.2.2`. -/
def exIP1 : Str := [49, 46, 49, 46, 49, 46, 49]

/-- The client address `2.2.2.2`. -/
def exIP2 : Str := [50, 46, 50, 46, 50, 46, 50]

/-- The state before anything was issued. -/
def exEmpty : State := { storage := [], outbox := [] }

/-- The secret text `BwcHBwcH...Bwc=`: the base64url text of the random bytes. -/
def exSecret : Str :=
  [66, 119, 99, 72, 66, 119, 99, 72, 66, 119, 99, 72, 66, 119, 99, 72, 66, 119, 99, 72, 66, 119,
    99, 72, 66, 119, 99, 72, 66, 119, 99, 72, 66, 119, 99, 72, 66, 119, 99, 72, 66, 119, 99, 61]

/-- The last 107 bytes of the refresh token issued under `exEnv`. -/
def exTokenTail : Str :=
  [87, 73, 119, 77, 84, 65, 121, 77, 68, 77, 116, 77, 68, 81, 119, 78, 83, 48, 48, 78, 106, 65,
    51, 76, 84, 103, 52, 77, 68, 107, 116, 77, 71, 69, 119, 89, 106, 66, 106, 77, 71, 81, 119, 90,
    84, 66, 109, 79, 107, 74, 51, 89, 48, 104, 67, 100, 50, 78, 73, 81, 110, 100, 106, 83, 69, 74,
    51, 89, 48, 104, 67, 100, 50, 78, 73, 81, 110, 100, 106, 83, 69, 74, 51, 89, 48, 104, 67, 100,
    50, 78, 73, 81, 110, 100, 106, 83, 69, 74, 51, 89, 48, 104, 67, 100, 50, 77, 57]

/-- The refresh token issued under `exEnv`: the base64url text
`YWIwMTAy...` of `ab010203-0405-4607-8809-0a0b0c0d0e0f:BwcH...Bwc=`. -/
def exToken : Str := 89 :: exTokenTail

/-- The same with the first byte `Y` replaced by `Q`: the base64url text of
`Ab010203-0405-4607-8809-0a0b0c0d0e0f:BwcH...Bwc=`. -/
def exTampered : Str := 81 :: exTokenTail

/-- The refresh token `exToken` with the last byte `9` replaced by `8`: the
base64url text of `ab010203-0405-4607-8809-0a0b0c0d0e0f:BwcH...Bwc<`. -/
def exTamperedSecret : Str := exToken.dropLast ++ [56]

/-- The row issued under `exEnv` to `exUser` at `exIP1`. -/
def exRow : RefreshToken :=
  { ID := exID, UserID := exUser, TokenHash := { salt := [5], password := exSecret },
    IssuedAt := 10, ExpiresAt := 3610, IssuedIP := exIP1, IsUsed := false, CreatedAt := 11 }

/-- The state after the issue under `exEnv`. -/
def exIssued : State := { storage := [exRow], outbox := [] }

/-- The state with the row of `exToken` used. -/
def exUsed : State := { storage := [{ exRow with IsUsed := true }], outbox := [] }

/-- The pair `CreateTokenPair` returns under `exEnv` to `exUser` at `exIP1`. -/
def exPair : TokenPair :=
  { AccessToken :=
      { claims := { ExpiresAt := 0, IssuedAt := 0, NotBefore := 0, ID := exEnv.jti.String,
                    UserID := exUser.String, IP := exIP1 },
        key := [107] },
    RefreshToken := exToken }

/-- The refresh token issued under `exEnv2`. -/
def exToken2 : Str :=
  EncodeToString (exID2.String ++ [58] ++ EncodeToString (List.replicate 32 9))

/-- The pair a rotation returns under `exEnv2` to `exUser` at `exIP2`. -/
def exPair2 : TokenPair :=
  { AccessToken :=
      { claims := { ExpiresAt := 0, IssuedAt := 0, NotBefore := 0, ID := exEnv2.jti.String,
                    UserID := exUser.String, IP := exIP2 },
        key := [107] },
    RefreshToken := exToken2 }

/-- The row issued under `exEnv2` to `exUser` at `exIP2`. -/
def exRow2 : RefreshToken :=
  { ID := exID2, UserID := exUser,
    TokenHash := { salt := [5], password := EncodeToString (List.replicate 32 9) },
    IssuedAt := 50, ExpiresAt := 3650, IssuedIP := exIP2, IsUsed := false, CreatedAt := 51 }

/-- The state after the rotation of `exToken` under `exEnv2` from `exIP2`. -/
def exRotated : State :=
  { storage := [{ exRow with IsUsed := true }, exRow2], outbox := [(exUser, exIP1, exIP2)] }

set_option maxRecDepth 100000

/-! ## The libraries: base64, Split, uuid -/

theorem decodeMap_encodeURL (i : Nat) (h : i < 64) : decodeMap (encodeURL i) = some i := by
  unfold encodeURL decodeMap
  split_ifs <;> first | omega | (simp <;> omega)

theorem encodeURL_ne_colon (i : Nat) : encodeURL i ≠ 58 := by
  unfold encodeURL
  split_ifs <;> omega

theorem encodeURL_lt (i : Nat) : encodeURL i < 256 := by
  unfold encodeURL
  split_ifs <;> omega

theorem decodeLoop_quantum (a b c : Nat) (ha : a < 256) (hb : b < 256) (hc : c < 256) (rest : Str) :
    decodeLoop [] (encodeURL ((a * 65536 + b * 256 + c) / 262144 % 64) ::
      encodeURL ((a * 65536 + b * 256 + c) / 4096 % 64) ::
      encodeURL ((a * 65536 + b * 256 + c) / 64 % 64) ::
      encodeURL ((a * 65536 + b * 256 + c) % 64) :: rest) =
    (decodeLoop [] rest).map (fun r => a :: b :: c :: r) := by
  simp only [decodeLoop, decodeMap_encodeURL _ (Nat.mod_lt _ (by norm_num : 64 > 0))]
  simp [quantumBytes]
  have e1 : ((a * 65536 + b * 256 + c) / 262144 % 64 * 262144 + (a * 65536 + b * 256 + c) / 4096 % 64 * 4096 +
      (a * 65536 + b * 256 + c) / 64 % 64 * 64 + (a * 65536 + b * 256 + c) % 64) = a * 65536 + b * 256 + c := by omega
  rw [e1]
  have e2 : (a * 65536 + b * 256 + c) / 65536 % 256 = a := by omega
  have e3 : (a * 65536 + b * 256 + c) / 256 % 256 = b := by omega
  have e4 : (a * 65536 + b * 256 + c) % 256 = c := by omega
  rw [e2, e3, e4]
  cases decodeLoop [] rest <;> rfl

theorem decodeLoop_pad1 (a : Nat) (ha : a < 256) :
    decodeLoop [] [encodeURL (a * 65536 / 262144 % 64), encodeURL (a * 65536 / 4096 % 64),
      padChar, padChar] = some [a] := by
  simp only [decodeLoop, decodeMap_encodeURL _ (Nat.mod_lt _ (by norm_num : 64 > 0))]
  simp [quantumBytes, padChar, decodeMap, skipNewlines]
  omega

theorem decodeLoop_pad2 (a b : Nat) (ha : a < 256) (hb : b < 256) :
    decodeLoop [] [encodeURL ((a * 65536 + b * 256) / 262144 % 64),
      encodeURL ((a * 65536 + b * 256) / 4096 % 64),
      encodeURL ((a * 65536 + b * 256) / 64 % 64), padChar] = some [a, b] := by
  simp only [decodeLoop, decodeMap_encodeURL _ (Nat.mod_lt _ (by norm_num : 64 > 0))]
  simp [quantumBytes, padChar, decodeMap, skipNewlines]
  omega

theorem DecodeString_EncodeToString (l : Str) (h : ∀ b ∈ l, b < 256) :
    DecodeString (EncodeToString l) = some l := by
  unfold DecodeString
  induction l using EncodeToString.induct with
  | case1 => simp [EncodeToString, decodeLoop]
  | case2 a =>
    simp only [EncodeToString]
    exact decodeLoop_pad1 a (h a (by simp))
  | case3 a b =>
    simp only [EncodeToString]
    exact decodeLoop_pad2 a b (h a (by simp)) (h b (by simp))
  | case4 a b c rest ih =>
    simp only [EncodeToString]
    rw [decodeLoop_quantum a b c (h a (by simp)) (h b (by simp)) (h c (by simp)),
      ih (fun x hx => h x (by simp [hx]))]
    rfl

theorem Split_no_sep (sep : Nat) (l : Str) (h : sep ∉ l) : Split sep l = [l] := by
  induction l with
  | nil => rfl
  | cons c cs ih =>
    have hc : c ≠ sep := fun e => h (by simp [e])
    have hcs : sep ∉ cs := fun e => h (by simp [e])
    simp [Split, hc, ih hcs]

theorem Split_append (sep : Nat) (a b : Str) (h : sep ∉ a) :
    Split sep (a ++ sep :: b) = a :: Split sep b := by
  induction a with
  | nil => simp [Split]
  | cons c cs ih =>
    have hc : c ≠ sep := fun e => h (by simp [e])
    have hcs : sep ∉ cs := fun e => h (by simp [e])
    simp [Split, hc, ih hcs]

theorem colon_not_mem_EncodeToString (l : Str) : 58 ∉ EncodeToString l := by
  induction l using EncodeToString.induct with
  | case1 => simp [EncodeToString]
  | case2 a => simp [EncodeToString, padChar, Ne.symm (encodeURL_ne_colon _)]
  | case3 a b => simp [EncodeToString, padChar, Ne.symm (encodeURL_ne_colon _)]
  | case4 a b c rest ih => simp [EncodeToString, Ne.symm (encodeURL_ne_colon _), ih]

theorem EncodeToString_lt (l : Str) : ∀ c ∈ EncodeToString l, c < 256 := by
  induction l using EncodeToString.induct with
  | case1 => simp [EncodeToString]
  | case2 a => simp [EncodeToString, padChar, encodeURL_lt]
  | case3 a b => simp [EncodeToString, padChar, encodeURL_lt]
  | case4 a b c rest ih =>
    intro x hx
    simp only [EncodeToString, List.mem_cons] at hx
    rcases hx with h | h | h | h | h
    · rw [h]; exact encodeURL_lt _
    · rw [h]; exact encodeURL_lt _
    · rw [h]; exact encodeURL_lt _
    · rw [h]; exact encodeURL_lt _
    · exact ih x h

theorem xvalue_hexDigit (n : Nat) (h : n < 16) : xvalue (hexDigit n) = some n := by
  unfold xvalue hexDigit
  split_ifs <;> first | omega | simp

theorem xtob_hexDigit (b : Nat) (h : b < 256) :
    xtob (hexDigit (b / 16)) (hexDigit (b % 16)) = some b := by
  unfold xtob
  rw [xvalue_hexDigit _ (by omega), xvalue_hexDigit _ (by omega)]
  simp only [Option.some.injEq]
  omega

theorem hexDigit_ne_colon (n : Nat) : hexDigit n ≠ 58 := by
  unfold hexDigit; split_ifs <;> omega

theorem hexDigit_lt (n : Nat) (h : n < 16) : hexDigit n < 256 := by
  unfold hexDigit; split_ifs <;> omega

theorem length_sixteen (u : List Nat) (h : u.length = 16) :
    ∃ b0 b1 b2 b3 b4 b5 b6 b7 b8 b9 b10 b11 b12 b13 b14 b15,
      u = [b0, b1, b2, b3, b4, b5, b6, b7, b8, b9, b10, b11, b12, b13, b14, b15] := by
  match u, h with
  | [b0, b1, b2, b3, b4, b5, b6, b7, b8, b9, b10, b11, b12, b13, b14, b15], _ =>
    exact ⟨b0, b1, b2, b3, b4, b5, b6, b7, b8, b9, b10, b11, b12, b13, b14, b15, rfl⟩

theorem Parse_String (u : UUID) (h : u.WF) : Parse u.String = some u := by
  obtain ⟨hl, hb⟩ := h
  obtain ⟨b0, b1, b2, b3, b4, b5, b6, b7, b8, b9, b10, b11, b12, b13, b14, b15, rfl⟩ :=
    length_sixteen u hl
  simp only [List.mem_cons, List.mem_singleton, forall_eq_or_imp, forall_eq, List.not_mem_nil,
    false_implies, implies_true, and_true] at hb
  obtain ⟨h0, h1, h2, h3, h4, h5, h6, h7, h8, h9, h10, h11, h12, h13, h14, h15⟩ := hb
  simp [Parse, UUID.String, hexEncode, parseHyphenated, xtobAt, xtob_hexDigit, *]

theorem String_length (u : UUID) (h : u.length = 16) : u.String.length = 36 := by
  obtain ⟨b0, b1, b2, b3, b4, b5, b6, b7, b8, b9, b10, b11, b12, b13, b14, b15, rfl⟩ :=
    length_sixteen u h
  simp [UUID.String, hexEncode]

theorem colon_not_mem_hexEncode (l : List Nat) : 58 ∉ hexEncode l := by
  induction l with
  | nil => simp [hexEncode]
  | cons b bs ih => simp [hexEncode, Ne.symm (hexDigit_ne_colon _), ih]

theorem colon_not_mem_String (u : UUID) : 58 ∉ u.String := by
  simp [UUID.String, colon_not_mem_hexEncode]

theorem hexEncode_lt (l : List Nat) (hl : ∀ b ∈ l, b < 256) : ∀ c ∈ hexEncode l, c < 256 := by
  induction l with
  | nil => simp [hexEncode]
  | cons b bs ih =>
    intro c hc
    simp only [hexEncode, List.mem_cons] at hc
    have hb : b < 256 := hl b (by simp)
    rcases hc with h | h | h
    · rw [h]; exact hexDigit_lt _ (by omega)
    · rw [h]; exact hexDigit_lt _ (by omega)
    · exact ih (fun x hx => hl x (by simp [hx])) c h

theorem String_lt (u : UUID) (h : ∀ b ∈ u, b < 256) : ∀ c ∈ u.String, c < 256 := by
  intro c hc
  simp only [UUID.String, List.mem_append, List.mem_singleton] at hc
  have ht : ∀ n, ∀ b ∈ u.take n, b < 256 := fun n b hb => h b (List.mem_of_mem_take hb)
  have hd : ∀ n, ∀ b ∈ u.drop n, b < 256 := fun n b hb => h b (List.mem_of_mem_drop hb)
  have htd : ∀ n m, ∀ b ∈ (u.drop n).take m, b < 256 :=
    fun n m b hb => hd n b (List.mem_of_mem_take hb)
  rcases hc with ((((((((hc | hc) | hc) | hc) | hc) | hc) | hc) | hc) | hc)
  · exact hexEncode_lt _ (ht 4) c hc
  · omega
  · exact hexEncode_lt _ (htd 4 2) c hc
  · omega
  · exact hexEncode_lt _ (htd 6 2) c hc
  · omega
  · exact hexEncode_lt _ (htd 8 2) c hc
  · omega
  · exact hexEncode_lt _ (hd 10) c hc

/-- The text `createRefreshToken` encodes for an identifier and random bytes. -/
theorem decodeRefreshToken_encode (id : UUID) (hid : id.WF) (tokenBytes : Str) :
    decodeRefreshToken (EncodeToString (id.String ++ [58] ++ EncodeToString tokenBytes)) =
      some (id, EncodeToString tokenBytes) := by
  have hlt : ∀ b ∈ id.String ++ [58] ++ EncodeToString tokenBytes, b < 256 := by
    intro b hb
    simp only [List.mem_append, List.mem_singleton] at hb
    rcases hb with (hb | hb) | hb
    · exact String_lt id hid.2 b hb
    · omega
    · exact EncodeToString_lt _ b hb
  have hsplit : Split 58 (id.String ++ [58] ++ EncodeToString tokenBytes) =
      [id.String, EncodeToString tokenBytes] := by
    rw [List.append_assoc, List.singleton_append, Split_append 58 _ _ (colon_not_mem_String id),
      Split_no_sep 58 _ (colon_not_mem_EncodeToString tokenBytes)]
  unfold decodeRefreshToken
  rw [DecodeString_EncodeToString _ hlt]
  simp only [hsplit]
  simp [Parse_String id hid]

/-! ## One changed byte in a base64url text -/

theorem Alphabet_cons (c : Nat) (l : Str) (h : Alphabet (c :: l)) :
    (∃ v, decodeMap c = some v) ∧ Alphabet l :=
  ⟨h c (by simp), fun x hx => h x (by simp [hx])⟩

theorem Alphabet_append (a b : Str) : Alphabet (a ++ b) ↔ Alphabet a ∧ Alphabet b := by
  unfold Alphabet
  constructor
  · intro h
    exact ⟨fun c hc => h c (by simp [hc]), fun c hc => h c (by simp [hc])⟩
  · rintro ⟨ha, hb⟩ c hc
    rcases List.mem_append.mp hc with h | h
    · exact ha c h
    · exact hb c h

theorem decodeLoop_alphabet_char (dbuf : List Nat) (c v : Nat) (cs : Str)
    (h : decodeMap c = some v) :
    decodeLoop dbuf (c :: cs) =
      if dbuf.length = 3 then
        match decodeLoop [] cs with
        | some r => some (quantumBytes (dbuf ++ [v]) ++ r)
        | none => none
      else decodeLoop (dbuf ++ [v]) cs := by
  simp only [decodeLoop, h]

/-- Whole quanta of alphabet characters decode to `decodeClean`, and decoding
goes on after them. -/
theorem decodeLoop_clean (l rest : Str) (hl : Alphabet l) (hlen : l.length % 4 = 0) :
    decodeLoop [] (l ++ rest) =
      match decodeLoop [] rest with
      | some r => some (decodeClean l ++ r)
      | none => none := by
  induction l using decodeClean.induct with
  | case1 c0 c1 c2 c3 l1 ih =>
    obtain ⟨⟨v0, h0⟩, hl⟩ := Alphabet_cons _ _ hl
    obtain ⟨⟨v1, h1⟩, hl⟩ := Alphabet_cons _ _ hl
    obtain ⟨⟨v2, h2⟩, hl⟩ := Alphabet_cons _ _ hl
    obtain ⟨⟨v3, h3⟩, hl⟩ := Alphabet_cons _ _ hl
    have hlen1 : l1.length % 4 = 0 := by simp only [List.length_cons] at hlen; omega
    have h4 : decodeLoop [] (c0 :: c1 :: c2 :: c3 :: (l1 ++ rest)) =
        match decodeLoop [] (l1 ++ rest) with
        | some r => some (quantumBytes [v0, v1, v2, v3] ++ r)
        | none => none := by
      simp [decodeLoop, h0, h1, h2, h3]
    simp only [List.cons_append]
    rw [h4, ih hl hlen1]
    simp only [decodeClean, sextet, h0, h1, h2, h3, Option.getD_some]
    cases decodeLoop [] rest <;> simp
  | case2 l hne =>
    match l, hne with
    | [], _ => simp [decodeClean]; cases decodeLoop [] rest <;> rfl
    | [_], _ => simp at hlen
    | [_, _], _ => simp at hlen
    | [_, _, _], _ => simp at hlen
    | c0 :: c1 :: c2 :: c3 :: l1, hne => exact absurd rfl (hne c0 c1 c2 c3 l1)

theorem decodeClean_length (l : Str) : (decodeClean l).length = l.length / 4 * 3 := by
  induction l using decodeClean.induct with
  | case1 c0 c1 c2 c3 l1 ih =>
    simp only [decodeClean, List.length_append, ih, List.length_cons]
    simp [quantumBytes]
    omega
  | case2 l hne =>
    match l, hne with
    | [], _ => simp [decodeClean]
    | [_], _ => simp [decodeClean]
    | [_, _], _ => simp [decodeClean]
    | [_, _, _], _ => simp [decodeClean]
    | c0 :: c1 :: c2 :: c3 :: l1, hne => exact absurd rfl (hne c0 c1 c2 c3 l1)

/-- Alphabet characters that do not fill whole quanta are a corrupt input. -/
theorem decodeLoop_short (l : Str) (hl : Alphabet l) (dbuf : List Nat) (hd : dbuf.length < 4)
    (hlen : (dbuf.length + l.length) % 4 ≠ 0) : decodeLoop dbuf l = none := by
  induction l generalizing dbuf with
  | nil =>
    have : dbuf.length ≠ 0 := by simp only [List.length_nil] at hlen; omega
    simp [decodeLoop, this]
  | cons c cs ih =>
    obtain ⟨⟨v, hv⟩, hcs⟩ := Alphabet_cons _ _ hl
    rw [decodeLoop_alphabet_char _ _ _ _ hv]
    simp only [List.length_cons] at hlen
    by_cases h3 : dbuf.length = 3
    · rw [if_pos h3, ih hcs [] (by simp) (by simp only [List.length_nil]; omega)]
    · rw [if_neg h3]
      exact ih hcs (dbuf ++ [v]) (by simp; omega) (by simp; omega)

/-- A `\r` or `\n` after alphabet characters is skipped. -/
theorem decodeLoop_newline (a : Str) (ha : Alphabet a) (c : Nat) (hc : c = 10 ∨ c = 13)
    (b : Str) (dbuf : List Nat) :
    decodeLoop dbuf (a ++ c :: b) = decodeLoop dbuf (a ++ b) := by
  induction a generalizing dbuf with
  | nil =>
    have hm : decodeMap c = none := by rcases hc with h | h <;> rw [h] <;> decide
    simp [decodeLoop, hm, hc]
  | cons x xs ih =>
    obtain ⟨⟨v, hv⟩, hxs⟩ := Alphabet_cons _ _ ha
    simp only [List.cons_append]
    rw [decodeLoop_alphabet_char _ _ _ _ hv, decodeLoop_alphabet_char _ _ _ _ hv,
      ih hxs, ih hxs]

theorem skipNewlines_alphabet (b : Str) (hb : Alphabet b) : skipNewlines b = b := by
  cases b with
  | nil => rfl
  | cons x xs =>
    obtain ⟨v, hv⟩ := hb x (by simp)
    have h10 : x ≠ 10 := by intro e; rw [e] at hv; simp [decodeMap] at hv
    have h13 : x ≠ 13 := by intro e; rw [e] at hv; simp [decodeMap] at hv
    simp [skipNewlines, h10, h13]

/-- A `=` after alphabet characters and before an alphabet character is a
corrupt input. -/
theorem decodeLoop_pad_inside (a : Str) (ha : Alphabet a) (b : Str) (hb : Alphabet b)
    (hne : b ≠ []) (dbuf : List Nat) : decodeLoop dbuf (a ++ padChar :: b) = none := by
  induction a generalizing dbuf with
  | nil =>
    have hm : decodeMap padChar = none := by decide
    have hs := skipNewlines_alphabet b hb
    cases b with
    | nil => exact absurd rfl hne
    | cons x xs =>
      obtain ⟨v, hv⟩ := hb x (by simp)
      have hx : x ≠ padChar := by intro e; rw [e] at hv; simp [decodeMap, padChar] at hv
      simp only [List.nil_append, decodeLoop, hm, hs]
      simp [padChar] at hx ⊢
      intro _ _
      exact fun h => absurd h hx
  | cons x xs ih =>
    obtain ⟨⟨v, hv⟩, hxs⟩ := Alphabet_cons _ _ ha
    simp only [List.cons_append]
    rw [decodeLoop_alphabet_char _ _ _ _ hv, ih hxs, ih hxs]
    simp

/-- A character that is neither of the alphabet, nor a line break, nor `=`, is
a corrupt input. -/
theorem decodeLoop_bad_char (a : Str) (ha : Alphabet a) (c : Nat) (hm : decodeMap c = none)
    (h10 : c ≠ 10) (h13 : c ≠ 13) (hp : c ≠ padChar) (b : Str) (dbuf : List Nat) :
    decodeLoop dbuf (a ++ c :: b) = none := by
  induction a generalizing dbuf with
  | nil => simp [decodeLoop, hm, h10, h13, hp]
  | cons x xs ih =>
    obtain ⟨⟨v, hv⟩, hxs⟩ := Alphabet_cons _ _ ha
    simp only [List.cons_append]
    rw [decodeLoop_alphabet_char _ _ _ _ hv, ih hxs, ih hxs]
    simp

/-- A text of whole quanta of alphabet characters in which one character that
is not the last was replaced: it decodes only if the new character is of the
alphabet. -/
theorem decodeLoop_replaced (a b : Str) (ha : Alphabet a) (hb : Alphabet b) (hne : b ≠ [])
    (hlen : (a.length + 1 + b.length) % 4 = 0) (c : Nat) (d : Str)
    (h : decodeLoop [] (a ++ c :: b) = some d) : ∃ v, decodeMap c = some v := by
  cases hm : decodeMap c with
  | some v => exact ⟨v, rfl⟩
  | none =>
    exfalso
    by_cases hnl : c = 10 ∨ c = 13
    · rw [decodeLoop_newline a ha c hnl b [],
        decodeLoop_short (a ++ b) ((Alphabet_append a b).mpr ⟨ha, hb⟩) [] (by simp)
          (by simp only [List.length_nil, List.length_append]; omega)] at h
      simp at h
    · by_cases hp : c = padChar
      · rw [hp, decodeLoop_pad_inside a ha b hb hne []] at h
        simp at h
      · rw [decodeLoop_bad_char a ha c hm (fun e => hnl (Or.inl e)) (fun e => hnl (Or.inr e))
          hp b []] at h
        simp at h

theorem decodeMap_encodeURL_mod (n : Nat) : decodeMap (encodeURL (n % 64)) = some (n % 64) :=
  decodeMap_encodeURL _ (Nat.mod_lt _ (by norm_num))

/-- The text of a whole number of three-byte groups has no padding. -/
theorem EncodeToString_alphabet (l : Str) (h : l.length % 3 = 0) :
    Alphabet (EncodeToString l) ∧ (EncodeToString l).length % 4 = 0 ∧
      (EncodeToString l).length = l.length / 3 * 4 := by
  induction l using EncodeToString.induct with
  | case1 => simp [EncodeToString, Alphabet]
  | case2 a => simp at h
  | case3 a b => simp at h
  | case4 a b c rest ih =>
    have hr : rest.length % 3 = 0 := by simp only [List.length_cons] at h; omega
    obtain ⟨h1, h2, h3⟩ := ih hr
    refine ⟨?_, ?_, ?_⟩
    · intro x hx
      simp only [EncodeToString, List.mem_cons] at hx
      rcases hx with e | e | e | e | e
      · exact ⟨_, by rw [e]; exact decodeMap_encodeURL_mod _⟩
      · exact ⟨_, by rw [e]; exact decodeMap_encodeURL_mod _⟩
      · exact ⟨_, by rw [e]; exact decodeMap_encodeURL_mod _⟩
      · exact ⟨_, by rw [e]; exact decodeMap_encodeURL_mod _⟩
      · exact h1 x e
    · simp only [EncodeToString, List.length_cons]; omega
    · simp only [EncodeToString, List.length_cons, h3]; omega

theorem EncodeToString_append (x y : Str) (h : x.length % 3 = 0) :
    EncodeToString (x ++ y) = EncodeToString x ++ EncodeToString y := by
  induction x using EncodeToString.induct with
  | case1 => simp [EncodeToString]
  | case2 a => simp at h
  | case3 a b => simp at h
  | case4 a b c rest ih =>
    have hr : rest.length % 3 = 0 := by simp only [List.length_cons] at h; omega
    show EncodeToString (a :: b :: c :: (rest ++ y)) = _
    simp only [EncodeToString, ih hr, List.cons_append]

/-- Whole groups encode to a text that `decodeClean` takes back. -/
theorem decodeClean_EncodeToString (l : Str) (hl : ∀ b ∈ l, b < 256) (h : l.length % 3 = 0) :
    decodeClean (EncodeToString l) = l := by
  obtain ⟨ha, h4, _⟩ := EncodeToString_alphabet l h
  have h1 := decodeLoop_clean (EncodeToString l) [] ha h4
  have h2 := DecodeString_EncodeToString l hl
  unfold DecodeString at h2
  rw [List.append_nil, h2] at h1
  simp only [decodeLoop, List.length_nil, if_true, List.append_nil, Option.some.injEq] at h1
  exact h1.symm

/-- The decoded bytes of a one-byte change of the base64url text of `x ++ y`,
where `x` and `y` are whole three-byte groups: either the bytes start with `x`,
or they are as many bytes as `x` followed by `y`. -/
theorem DecodeString_one_byte (x y : Str) (hx : ∀ b ∈ x, b < 256) (hy : ∀ b ∈ y, b < 256)
    (hx3 : x.length % 3 = 0) (hy3 : y.length % 3 = 0) (hyne : y ≠ [])
    (t1 : Str) (hdiff : OneByteDiff (EncodeToString (x ++ y)) t1) (d : Str)
    (hdec : DecodeString t1 = some d) :
    (∃ rest, d = x ++ rest) ∨ (∃ pre, pre.length = x.length ∧ d = pre ++ y) := by
  obtain ⟨a, c, c1, b, ht, ht1, _⟩ := hdiff
  rw [EncodeToString_append x y hx3] at ht
  obtain ⟨hPa, hP4, hPl⟩ := EncodeToString_alphabet x hx3
  obtain ⟨hQa, hQ4, hQl⟩ := EncodeToString_alphabet y hy3
  have hQne : EncodeToString y ≠ [] := by
    intro e
    rw [e] at hQl
    have : y.length ≠ 0 := fun h0 => hyne (List.length_eq_zero.mp h0)
    simp only [List.length_nil] at hQl
    omega
  unfold DecodeString at hdec
  rw [ht1] at hdec
  rcases List.append_eq_append_iff.mp ht with ⟨a1, hP, hQ⟩ | ⟨c2, ha, hQ⟩
  · -- the change is at or after the end of the text of `x`
    left
    rw [hP, List.append_assoc, decodeLoop_clean _ _ hPa hP4] at hdec
    rw [decodeClean_EncodeToString x hx hx3] at hdec
    cases hr : decodeLoop [] (a1 ++ c1 :: b) with
    | none => simp [hr] at hdec
    | some r => simp only [hr, Option.some.injEq] at hdec; exact ⟨r, hdec.symm⟩
  · cases c2 with
    | nil =>
      left
      simp only [List.append_nil] at ha
      rw [← ha, decodeLoop_clean _ _ hPa hP4, decodeClean_EncodeToString x hx hx3] at hdec
      cases hr : decodeLoop [] (c1 :: b) with
      | none => simp [hr] at hdec
      | some r => simp only [hr, Option.some.injEq] at hdec; exact ⟨r, hdec.symm⟩
    | cons c3 b1 =>
      -- the change is inside the text of `x`
      right
      simp only [List.cons_append, List.cons.injEq] at hQ
      obtain ⟨hc3, hb⟩ := hQ
      subst hc3
      rw [ha] at hPa hP4 hPl
      have haA := ((Alphabet_append a (c :: b1)).mp hPa).1
      have hb1A := (Alphabet_cons _ _ ((Alphabet_append a (c :: b1)).mp hPa).2).2
      have hbA : Alphabet b := by rw [hb]; exact (Alphabet_append _ _).mpr ⟨hb1A, hQa⟩
      have hbne : b ≠ [] := by rw [hb]; simp [hQne]
      have hlen : (a.length + 1 + b.length) % 4 = 0 := by
        rw [hb]
        simp only [List.length_append, List.length_cons] at hP4 ⊢
        omega
      obtain ⟨v, hv⟩ := decodeLoop_replaced a b haA hbA hbne hlen c1 d hdec
      have hxA : Alphabet (a ++ c1 :: b1) := by
        apply (Alphabet_append _ _).mpr
        refine ⟨haA, ?_⟩
        intro z hz
        rcases List.mem_cons.mp hz with e | e
        · exact ⟨v, by rw [e]; exact hv⟩
        · exact hb1A z e
      have hxl : (a ++ c1 :: b1).length = (a ++ c :: b1).length := by simp
      have hx4 : (a ++ c1 :: b1).length % 4 = 0 := by rw [hxl]; exact hP4
      have hsplit : a ++ c1 :: b = (a ++ c1 :: b1) ++ EncodeToString y := by
        rw [hb]; simp
      rw [hsplit, decodeLoop_clean _ _ hxA hx4] at hdec
      have hq := decodeLoop_clean (EncodeToString y) [] hQa hQ4
      rw [List.append_nil] at hq
      rw [hq, decodeClean_EncodeToString y hy hy3] at hdec
      simp only [decodeLoop, List.length_nil, if_true, List.append_nil, Option.some.injEq] at hdec
      refine ⟨decodeClean (a ++ c1 :: b1), ?_, hdec.symm⟩
      rw [decodeClean_length, hxl, hPl]
      omega

theorem Split_head (sep : Nat) (l : Str) : ∃ p ps, Split sep l = p :: ps ∧ sep ∉ p := by
  induction l with
  | nil => exact ⟨[], [], rfl, by simp⟩
  | cons c cs ih =>
    obtain ⟨p, ps, hs, hp⟩ := ih
    by_cases hc : c = sep
    · exact ⟨[], Split sep cs, by simp [Split, hc], by simp⟩
    · refine ⟨c :: p, ps, by simp [Split, hc, hs], ?_⟩
      simp only [List.mem_cons, not_or]
      exact ⟨fun e => hc e.symm, hp⟩

theorem Split_append_left (sep : Nat) (a l p : Str) (ps : List Str) (ha : sep ∉ a)
    (hs : Split sep l = p :: ps) : Split sep (a ++ l) = (a ++ p) :: ps := by
  induction a with
  | nil => simpa using hs
  | cons c cs ih =>
    have hc : c ≠ sep := fun e => ha (by simp [e])
    have hcs : sep ∉ cs := fun e => ha (by simp [e])
    simp [Split, hc, ih hcs]

theorem Split_length (sep : Nat) (l : Str) : (Split sep l).length = l.count sep + 1 := by
  induction l with
  | nil => rfl
  | cons c cs ih =>
    obtain ⟨p, ps, hs, _⟩ := Split_head sep cs
    by_cases hc : c = sep
    · simp [Split, hc, ih]
    · have hne : (c == sep) = false := by simpa using hc
      rw [hs] at ih
      simp only [Split, hc, if_false, hs, List.length_cons, List.count_cons, hne] at ih ⊢
      simpa using ih

/-- The text of an identifier followed by anything parses, if it parses, to
that identifier. -/
theorem Parse_String_append (u : UUID) (h : u.WF) (q : Str) (id1 : UUID)
    (hp : Parse (u.String ++ q) = some id1) : id1 = u := by
  have hl36 : u.String.length = 36 := String_length u h.1
  by_cases hq0 : q.length = 0
  · have : q = [] := List.length_eq_zero.mp hq0
    rw [this, List.append_nil, Parse_String u h] at hp
    exact (Option.some.inj hp).symm
  · exfalso
    obtain ⟨hl, hb⟩ := h
    obtain ⟨b0, b1, b2, b3, b4, b5, b6, b7, b8, b9, b10, b11, b12, b13, b14, b15, rfl⟩ :=
      length_sixteen u hl
    have h0 : b0 < 256 := hb b0 (by simp)
    have h4 : b4 < 256 := hb b4 (by simp)
    have hd0 : hexDigit (b0 / 16) ≤ 102 := by unfold hexDigit; split_ifs <;> omega
    have hd0' : ¬ (65 ≤ hexDigit (b0 / 16) ∧ hexDigit (b0 / 16) ≤ 90) := by
      unfold hexDigit; split_ifs <;> omega
    have hd4 : hexDigit (b4 / 16) ≠ 45 := by unfold hexDigit; split_ifs <;> omega
    unfold Parse at hp
    rw [List.length_append, hl36] at hp
    have e1 : ¬ (36 + q.length = 36) := by omega
    have e4 : ¬ (36 + q.length = 32) := by omega
    simp only [e1, e4, if_false] at hp
    by_cases hq9 : 36 + q.length = 36 + 9
    · simp only [hq9, if_true] at hp
      have : (List.take 9 (UUID.String [b0, b1, b2, b3, b4, b5, b6, b7, b8, b9, b10, b11, b12,
          b13, b14, b15] ++ q)).map toLowerASCII ≠ urnPrefix := by
        simp only [UUID.String, hexEncode, List.take, List.drop, List.cons_append,
          List.nil_append, List.map, urnPrefix, ne_eq, List.cons.injEq, not_and]
        intro e
        exfalso
        unfold toLowerASCII at e
        rw [if_neg hd0'] at e
        omega
      rw [if_pos this] at hp
      simp at hp
    · by_cases hq2 : 36 + q.length = 36 + 2
      · simp only [hq9, hq2, if_true, if_false] at hp
        have : parseHyphenated (List.drop 1 (UUID.String [b0, b1, b2, b3, b4, b5, b6, b7, b8, b9,
            b10, b11, b12, b13, b14, b15] ++ q)) = none := by
          simp [parseHyphenated, UUID.String, hexEncode, hd4]
        rw [this] at hp
        simp at hp
      · simp [hq9, hq2] at hp

theorem EncodeToString_length (l : Str) : (EncodeToString l).length = (l.length + 2) / 3 * 4 := by
  induction l using EncodeToString.induct with
  | case1 => rfl
  | case2 a => simp [EncodeToString]
  | case3 a b => simp [EncodeToString]
  | case4 a b c rest ih => simp only [EncodeToString, List.length_cons, ih]; omega

/-- What a one-byte change of an issued refresh token can decode to: the
identifier that was issued, or the secret text that was issued. -/
theorem decodeRefreshToken_one_byte (u : UUID) (hu : u.WF) (tokenBytes : Str)
    (hlen : tokenBytes.length = 32) (t1 : Str)
    (hdiff : OneByteDiff (EncodeToString (u.String ++ [58] ++ EncodeToString tokenBytes)) t1)
    (id1 : UUID) (sec1 : Str) (hdec : decodeRefreshToken t1 = some (id1, sec1)) :
    id1 = u ∨ sec1 = EncodeToString tokenBytes := by
  have hx3 : u.String.length % 3 = 0 := by rw [String_length u hu.1]
  have hy3 : (58 :: EncodeToString tokenBytes).length % 3 = 0 := by
    rw [List.length_cons, EncodeToString_length, hlen]
  have hy : ∀ b ∈ 58 :: EncodeToString tokenBytes, b < 256 := by
    intro b hb
    rcases List.mem_cons.mp hb with e | e
    · omega
    · exact EncodeToString_lt _ b e
  rw [List.append_assoc, List.singleton_append] at hdiff
  unfold decodeRefreshToken at hdec
  cases hd : DecodeString t1 with
  | none => simp [hd] at hdec
  | some d =>
    simp only [hd] at hdec
    by_cases hl : (Split 58 d).length ≠ 2
    · simp [hl] at hdec
    · simp only [hl, if_false] at hdec
      simp only [List.getD_eq_getElem?_getD] at hdec
      cases hp : Parse ((Split 58 d)[0]?.getD []) with
      | none => simp [hp] at hdec
      | some id2 =>
        simp only [hp, Option.some.injEq, Prod.mk.injEq] at hdec
        obtain ⟨hid, hsec⟩ := hdec
        subst hid
        rcases DecodeString_one_byte u.String (58 :: EncodeToString tokenBytes)
          (String_lt u hu.2) hy hx3 hy3 (by simp) t1 hdiff d hd with ⟨rest, hr⟩ | ⟨pre, _, hr⟩
        · left
          obtain ⟨p, ps, hs, _⟩ := Split_head 58 rest
          rw [hr, Split_append_left 58 _ _ _ _ (colon_not_mem_String u) hs] at hp
          simp only [List.getElem?_cons_zero, Option.getD_some] at hp
          exact Parse_String_append u hu p id2 hp
        · right
          have hcount : d.count 58 = 1 := by
            have := Split_length 58 d
            simp only [ne_eq, not_not] at hl
            omega
          have hsec0 : (EncodeToString tokenBytes).count 58 = 0 :=
            List.count_eq_zero.mpr (colon_not_mem_EncodeToString tokenBytes)
          rw [hr, List.count_append, List.count_cons_self, hsec0] at hcount
          have hpre : 58 ∉ pre := List.count_eq_zero.mp (by omega)
          rw [hr, Split_append 58 _ _ hpre,
            Split_no_sep 58 _ (colon_not_mem_EncodeToString tokenBytes)] at hsec
          simpa using hsec.symm


/-! ## The service: what a successful call went through -/

/-- The row `createRefreshToken` inserts. -/
theorem createRefreshToken_ok (s : Service) (env : Env) (st : State) (userID : UUID) (ip : Str)
    (t : Str) (st1 : State) (h : createRefreshToken s env st userID ip = (.ok t, st1)) :
    ∃ tokenBytes salt, env.randBytes = some tokenBytes ∧ env.salt = some salt ∧
      env.saveErr = false ∧
      st.storage.any (fun r => decide (r.ID = env.newID)) = false ∧
      t = EncodeToString (env.newID.String ++ [58] ++ EncodeToString tokenBytes) ∧
      st1 = { st with storage := st.storage ++
        [{ ID := env.newID, UserID := userID,
           TokenHash := { salt := salt, password := EncodeToString tokenBytes },
           IssuedAt := env.issuedNow, ExpiresAt := env.expiresNow + s.refreshTTL,
           IssuedIP := ip, IsUsed := false, CreatedAt := env.dbNow }] } := by
  unfold createRefreshToken at h
  cases hr : env.randBytes with
  | none => simp [hr] at h
  | some tokenBytes =>
    cases hs : env.salt with
    | none => simp [hr, hs] at h
    | some salt =>
      simp only [hr, hs, SaveRefreshToken] at h
      by_cases he : env.saveErr = true
      · simp [he] at h
      · by_cases ha : st.storage.any (fun r => decide (r.ID = env.newID)) = true
        · simp [he, ha] at h
        · simp only [he, ha, Bool.false_eq_true, if_false, Prod.mk.injEq, Except.ok.injEq] at h
          refine ⟨tokenBytes, salt, rfl, rfl, by simpa using he, by simpa using ha, h.1.symm, h.2.symm⟩

theorem CreateTokenPair_ok (s : Service) (env : Env) (st : State) (userID : UUID) (ip : Str)
    (pair : TokenPair) (st1 : State) (h : CreateTokenPair s env st userID ip = (.ok pair, st1)) :
    createRefreshToken s env st userID ip = (.ok pair.RefreshToken, st1) := by
  unfold CreateTokenPair at h
  cases ha : createAccessToken s env userID ip with
  | error e => simp [ha] at h
  | ok a =>
    rw [ha] at h
    rcases hc : createRefreshToken s env st userID ip with ⟨r, st2⟩
    rw [hc] at h
    cases r with
    | error e => simp at h
    | ok t =>
      simp only [Prod.mk.injEq, Except.ok.injEq] at h
      rw [← h.1, h.2]

theorem RefreshTokens_of_decode_none (s : Service) (env : Env) (st : State) (t ip : Str)
    (h : decodeRefreshToken t = none) :
    RefreshTokens s env st t ip = (.error .ErrInvalidToken, st) := by
  unfold decodeRefreshToken at h
  unfold RefreshTokens
  cases hd : DecodeString t with
  | none => rfl
  | some tokenData =>
    simp only [hd] at h ⊢
    by_cases hl : (Split 58 tokenData).length ≠ 2
    · rw [if_pos hl]
    · simp only [hl, if_false] at h ⊢
      simp only [List.getD_eq_getElem?_getD] at h ⊢
      cases hp : Parse ((Split 58 tokenData)[0]?.getD []) with
      | none => rfl
      | some tokenID => simp [hp] at h

theorem RefreshTokens_of_decode_some (s : Service) (env : Env) (st : State) (t ip : Str)
    (id : UUID) (sec : Str) (h : decodeRefreshToken t = some (id, sec)) :
    RefreshTokens s env st t ip =
      match GetRefreshToken st.storage env.getErr id with
      | .error err => (.error err, st)
      | .ok storedToken =>
        if env.now > storedToken.ExpiresAt then (.error .ErrTokenExpired, st)
        else if storedToken.IsUsed then (.error .ErrTokenUsed, st)
        else if ¬ CompareHashAndPassword storedToken.TokenHash sec then
          (.error .ErrInvalidToken, st)
        else
          let st1 : State :=
            if ip ≠ storedToken.IssuedIP then
              { st with outbox := st.outbox ++ [(storedToken.UserID, storedToken.IssuedIP, ip)] }
            else st
          match MarkTokenAsUsed st1.storage env.markErr id with
          | (.error err, db) => (.error err, { st1 with storage := db })
          | (.ok _, db) => CreateTokenPair s env { st1 with storage := db } storedToken.UserID ip := by
  unfold decodeRefreshToken at h
  unfold RefreshTokens
  cases hd : DecodeString t with
  | none => simp [hd] at h
  | some tokenData =>
    simp only [hd] at h ⊢
    by_cases hl : (Split 58 tokenData).length ≠ 2
    · simp [hl] at h
    · simp only [hl, if_false] at h ⊢
      simp only [List.getD_eq_getElem?_getD] at h ⊢
      cases hp : Parse ((Split 58 tokenData)[0]?.getD []) with
      | none => simp [hp] at h
      | some tokenID =>
        simp only [hp, Option.some.injEq, Prod.mk.injEq] at h ⊢
        rw [h.1, h.2]


theorem GetRefreshToken_ok (db : Storage) (dbErr : Bool) (id : UUID) (r : RefreshToken)
    (h : GetRefreshToken db dbErr id = .ok r) :
    dbErr = false ∧ db.find? (fun x => decide (x.ID = id)) = some r := by
  unfold GetRefreshToken at h
  cases dbErr with
  | true => simp at h
  | false =>
    cases hf : db.find? (fun x => decide (x.ID = id)) with
    | none => simp [hf] at h
    | some r1 =>
      simp only [hf, Bool.false_eq_true, if_false, Except.ok.injEq] at h
      exact ⟨rfl, by rw [h]⟩

theorem MarkTokenAsUsed_found (db : Storage) (id : UUID) (r : RefreshToken)
    (h : db.find? (fun x => decide (x.ID = id)) = some r) :
    MarkTokenAsUsed db false id = (.ok (), markedRows db id) := by
  have hm := List.mem_of_find?_eq_some h
  have hp := List.find?_some h
  have hc : List.countP (fun r => decide (r.ID = id)) db ≠ 0 := by
    intro h0
    rw [List.countP_eq_zero] at h0
    exact h0 r hm hp
  simp [MarkTokenAsUsed, hc]

/-- The outbox after the notification step of `RefreshTokens`. -/
theorem RefreshTokens_passed (s : Service) (env : Env) (st : State) (t ip : Str)
    (id : UUID) (sec : Str) (r : RefreshToken)
    (hdec : decodeRefreshToken t = some (id, sec))
    (hget : GetRefreshToken st.storage env.getErr id = .ok r)
    (hexp : ¬ env.now > r.ExpiresAt) (hused : r.IsUsed = false)
    (hpw : r.TokenHash.password = sec) :
    RefreshTokens s env st t ip =
      if env.markErr then
        (.error .driver,
          { storage := st.storage,
            outbox := if ip ≠ r.IssuedIP then st.outbox ++ [(r.UserID, r.IssuedIP, ip)]
              else st.outbox })
      else
        CreateTokenPair s env
          { storage := markedRows st.storage id,
            outbox := if ip ≠ r.IssuedIP then st.outbox ++ [(r.UserID, r.IssuedIP, ip)]
              else st.outbox } r.UserID ip := by
  rw [RefreshTokens_of_decode_some s env st t ip id sec hdec, hget]
  have hfind := (GetRefreshToken_ok _ _ _ _ hget).2
  have hcmp : CompareHashAndPassword r.TokenHash sec = true := by
    simp [CompareHashAndPassword, hpw]
  simp only [hexp, hused, hcmp, if_false, Bool.false_eq_true, not_true_eq_false]
  cases hm : env.markErr with
  | true =>
    by_cases h6 : ip = r.IssuedIP <;> simp [MarkTokenAsUsed, h6]
  | false =>
    by_cases h6 : ip = r.IssuedIP
    · simp only [h6, ne_eq, not_true_eq_false, if_false, Bool.false_eq_true]
      rw [MarkTokenAsUsed_found _ _ _ hfind]
    · simp only [h6, ne_eq, not_false_eq_true, if_true, Bool.false_eq_true, if_false]
      rw [MarkTokenAsUsed_found _ _ _ hfind]

/-- The six ways through `RefreshTokens`. -/
theorem RefreshTokens_cases (s : Service) (env : Env) (st : State) (t ip : Str) :
    (decodeRefreshToken t = none ∧ RefreshTokens s env st t ip = (.error .ErrInvalidToken, st)) ∨
    ∃ id sec, decodeRefreshToken t = some (id, sec) ∧
      ((∃ e, GetRefreshToken st.storage env.getErr id = .error e ∧
          RefreshTokens s env st t ip = (.error e, st)) ∨
       ∃ r, GetRefreshToken st.storage env.getErr id = .ok r ∧
        ((env.now > r.ExpiresAt ∧ RefreshTokens s env st t ip = (.error .ErrTokenExpired, st)) ∨
         (¬ env.now > r.ExpiresAt ∧ r.IsUsed = true ∧
            RefreshTokens s env st t ip = (.error .ErrTokenUsed, st)) ∨
         (¬ env.now > r.ExpiresAt ∧ r.IsUsed = false ∧ r.TokenHash.password ≠ sec ∧
            RefreshTokens s env st t ip = (.error .ErrInvalidToken, st)) ∨
         (¬ env.now > r.ExpiresAt ∧ r.IsUsed = false ∧ r.TokenHash.password = sec ∧
            RefreshTokens s env st t ip =
              if env.markErr then
                (.error .driver,
                  { storage := st.storage,
                    outbox := if ip ≠ r.IssuedIP then st.outbox ++ [(r.UserID, r.IssuedIP, ip)]
                      else st.outbox })
              else
                CreateTokenPair s env
                  { storage := markedRows st.storage id,
                    outbox := if ip ≠ r.IssuedIP then st.outbox ++ [(r.UserID, r.IssuedIP, ip)]
                      else st.outbox } r.UserID ip))) := by
  cases hd : decodeRefreshToken t with
  | none => exact Or.inl ⟨rfl, RefreshTokens_of_decode_none s env st t ip hd⟩
  | some p =>
    obtain ⟨id, sec⟩ := p
    refine Or.inr ⟨id, sec, rfl, ?_⟩
    have hrw := RefreshTokens_of_decode_some s env st t ip id sec hd
    cases hg : GetRefreshToken st.storage env.getErr id with
    | error e => exact Or.inl ⟨e, rfl, by rw [hrw, hg]⟩
    | ok r =>
      refine Or.inr ⟨r, rfl, ?_⟩
      by_cases h1 : env.now > r.ExpiresAt
      · exact Or.inl ⟨h1, by rw [hrw, hg]; simp [h1]⟩
      · by_cases h2 : r.IsUsed = true
        · exact Or.inr (Or.inl ⟨h1, h2, by rw [hrw, hg]; simp [h1, h2]⟩)
        · have h2f : r.IsUsed = false := by simpa using h2
          by_cases h3 : r.TokenHash.password = sec
          · exact Or.inr (Or.inr (Or.inr ⟨h1, h2f, h3,
              RefreshTokens_passed s env st t ip id sec r hd hg h1 h2f h3⟩))
          · exact Or.inr (Or.inr (Or.inl ⟨h1, h2f, h3, by
              rw [hrw, hg]; simp [h1, h2f, CompareHashAndPassword, h3]⟩))

/-- What a successful `RefreshTokens` went through. -/
theorem RefreshTokens_ok (s : Service) (env : Env) (st : State) (t ip : Str)
    (pair : TokenPair) (st2 : State) (h : RefreshTokens s env st t ip = (.ok pair, st2)) :
    ∃ id sec r, decodeRefreshToken t = some (id, sec) ∧
      GetRefreshToken st.storage env.getErr id = .ok r ∧
      ¬ env.now > r.ExpiresAt ∧ r.IsUsed = false ∧ r.TokenHash.password = sec ∧
      CreateTokenPair s env
        { storage := markedRows st.storage id,
          outbox := if ip ≠ r.IssuedIP then st.outbox ++ [(r.UserID, r.IssuedIP, ip)]
            else st.outbox } r.UserID ip = (.ok pair, st2) := by
  rcases RefreshTokens_cases s env st t ip with ⟨_, hr⟩ | ⟨id, sec, hd, hc⟩
  · rw [hr] at h; simp at h
  · rcases hc with ⟨e, _, hr⟩ | ⟨r, hg, hc⟩
    · rw [hr] at h; simp at h
    · rcases hc with ⟨_, hr⟩ | ⟨_, _, hr⟩ | ⟨_, _, _, hr⟩ | ⟨h1, h2, h3, hr⟩
      · rw [hr] at h; simp at h
      · rw [hr] at h; simp at h
      · rw [hr] at h; simp at h
      · rw [hr] at h
        cases hm : env.markErr with
        | true => simp [hm] at h
        | false =>
          simp only [hm, Bool.false_eq_true, if_false] at h
          exact ⟨id, sec, r, hd, hg, h1, h2, h3, h⟩


/-! ## The storage -/

theorem GetRefreshToken_of_find (db : Storage) (id : UUID) (r : RefreshToken)
    (h : db.find? (fun x => decide (x.ID = id)) = some r) :
    GetRefreshToken db false id = .ok r := by
  simp [GetRefreshToken, h]

theorem find_ID (db : Storage) (id : UUID) (r : RefreshToken)
    (h : db.find? (fun x => decide (x.ID = id)) = some r) : r.ID = id := by
  have := List.find?_some h
  simpa using this

theorem find_markedRows (db : Storage) (id tokenID : UUID) :
    (markedRows db tokenID).find? (fun x => decide (x.ID = id)) =
      (db.find? (fun x => decide (x.ID = id))).map
        (fun r => if r.ID = tokenID then { r with IsUsed := true } else r) := by
  unfold markedRows
  rw [List.find?_map]
  have hp : ((fun x : RefreshToken => decide (x.ID = id)) ∘
      fun r : RefreshToken => if r.ID = tokenID then { r with IsUsed := true } else r) =
      fun x => decide (x.ID = id) := by
    funext r
    by_cases ht : r.ID = tokenID <;> simp [ht]
  rw [hp]

theorem find_append_new (db : Storage) (id : UUID) (new : RefreshToken)
    (h : db.any (fun r => decide (r.ID = new.ID)) = false) :
    (db ++ [new]).find? (fun x => decide (x.ID = id)) =
      if new.ID = id then some new else db.find? (fun x => decide (x.ID = id)) := by
  rw [List.find?_append]
  by_cases hn : new.ID = id
  · have : db.find? (fun x => decide (x.ID = id)) = none := by
      rw [List.find?_eq_none]
      intro x hx
      simp only [List.any_eq_false, decide_eq_true_eq] at h
      have := h x hx
      simp [hn ▸ this]
    simp [this, hn]
  · cases hf : db.find? (fun x => decide (x.ID = id)) <;> simp [hn]

theorem Keeps_refl (db : Storage) : Keeps db db :=
  fun _ r h => ⟨r, h, Or.inl rfl⟩

theorem Keeps_trans (a b c : Storage) (hab : Keeps a b) (hbc : Keeps b c) : Keeps a c := by
  intro id r h
  obtain ⟨r1, h1, e1⟩ := hab id r h
  obtain ⟨r2, h2, e2⟩ := hbc id r1 h1
  refine ⟨r2, h2, ?_⟩
  rcases e1 with e1 | e1 <;> rcases e2 with e2 | e2 <;> simp [e1, e2]

theorem Keeps_markedRows (db : Storage) (tokenID : UUID) : Keeps db (markedRows db tokenID) := by
  intro id r h
  rw [find_markedRows, h]
  by_cases ht : r.ID = tokenID
  · exact ⟨_, by simp [ht], Or.inr rfl⟩
  · exact ⟨r, by simp [ht], Or.inl rfl⟩

theorem Keeps_append_new (db : Storage) (new : RefreshToken) : Keeps db (db ++ [new]) := by
  intro id r hf
  refine ⟨r, ?_, Or.inl rfl⟩
  rw [List.find?_append, hf]
  rfl

theorem Keeps_SaveRefreshToken (db : Storage) (dbErr : Bool) (dbNow : Int) (token : RefreshToken) :
    Keeps db (SaveRefreshToken db dbErr dbNow token).2 := by
  unfold SaveRefreshToken
  by_cases he : dbErr = true
  · simp only [he, if_true]; exact Keeps_refl db
  · by_cases ha : db.any (fun r => decide (r.ID = token.ID)) = true
    · simp only [he, ha, if_true, if_false]; exact Keeps_refl db
    · simp only [he, ha, if_false]
      exact Keeps_append_new db _

theorem Keeps_createRefreshToken (s : Service) (env : Env) (st : State) (userID : UUID)
    (ip : Str) : Keeps st.storage (createRefreshToken s env st userID ip).2.storage := by
  unfold createRefreshToken
  cases env.randBytes with
  | none => exact Keeps_refl _
  | some tokenBytes =>
    cases env.salt with
    | none => exact Keeps_refl _
    | some salt =>
      simp only []
      have hk := Keeps_SaveRefreshToken st.storage env.saveErr env.dbNow
        { ID := env.newID, UserID := userID,
          TokenHash := { salt := salt, password := EncodeToString tokenBytes },
          IssuedAt := env.issuedNow, ExpiresAt := env.expiresNow + s.refreshTTL,
          IssuedIP := ip, IsUsed := false, CreatedAt := 0 }
      revert hk
      generalize SaveRefreshToken st.storage env.saveErr env.dbNow _ = res
      intro hk
      obtain ⟨r, db⟩ := res
      cases r <;> exact hk

theorem Keeps_CreateTokenPair (s : Service) (env : Env) (st : State) (userID : UUID)
    (ip : Str) : Keeps st.storage (CreateTokenPair s env st userID ip).2.storage := by
  unfold CreateTokenPair
  cases createAccessToken s env userID ip with
  | error e => exact Keeps_refl _
  | ok a =>
    simp only []
    have hk := Keeps_createRefreshToken s env st userID ip
    revert hk
    generalize createRefreshToken s env st userID ip = res
    intro hk
    obtain ⟨r, st1⟩ := res
    cases r <;> exact hk

theorem Keeps_RefreshTokens (s : Service) (env : Env) (st : State) (t ip : Str) :
    Keeps st.storage (RefreshTokens s env st t ip).2.storage := by
  rcases RefreshTokens_cases s env st t ip with ⟨_, hr⟩ | ⟨id, sec, _, hc⟩
  · rw [hr]; exact Keeps_refl _
  · rcases hc with ⟨e1, _, hr⟩ | ⟨r, _, hc⟩
    · rw [hr]; exact Keeps_refl _
    · rcases hc with ⟨_, hr⟩ | ⟨_, _, hr⟩ | ⟨_, _, _, hr⟩ | ⟨_, _, _, hr⟩
      · rw [hr]; exact Keeps_refl _
      · rw [hr]; exact Keeps_refl _
      · rw [hr]; exact Keeps_refl _
      · rw [hr]
        cases env.markErr with
        | true => exact Keeps_refl _
        | false =>
          simp only [Bool.false_eq_true, if_false]
          exact Keeps_trans _ _ _ (Keeps_markedRows st.storage id)
            (Keeps_CreateTokenPair s env
              { storage := markedRows st.storage id,
                outbox := if ip ≠ r.IssuedIP then st.outbox ++ [(r.UserID, r.IssuedIP, ip)]
                  else st.outbox } r.UserID ip)

theorem Keeps_step (s : Service) (st : State) (c : Call) : Keeps st.storage (step s st c).storage := by
  cases c with
  | create env userID ip => exact Keeps_CreateTokenPair s env st userID ip
  | refresh env t ip => exact Keeps_RefreshTokens s env st t ip

theorem Keeps_run (s : Service) (calls : List Call) (st : State) :
    Keeps st.storage (run s st calls).storage := by
  induction calls generalizing st with
  | nil => exact Keeps_refl _
  | cons c cs ih =>
    exact Keeps_trans _ _ _ (Keeps_step s st c) (ih (step s st c))

/-- The row of the consumed token after a successful `RefreshTokens`. -/
theorem RefreshTokens_ok_used (s : Service) (env : Env) (st : State) (t ip : Str)
    (pair : TokenPair) (st2 : State) (h : RefreshTokens s env st t ip = (.ok pair, st2)) :
    ∃ id sec r tokenBytes, decodeRefreshToken t = some (id, sec) ∧
      GetRefreshToken st.storage env.getErr id = .ok r ∧ r.ID = id ∧ env.newID ≠ id ∧
      pair.RefreshToken = EncodeToString (env.newID.String ++ [58] ++ EncodeToString tokenBytes) ∧
      st2.storage.find? (fun x => decide (x.ID = id)) = some { r with IsUsed := true } := by
  obtain ⟨id, sec, r, hdec, hget, _, _, _, hc⟩ := RefreshTokens_ok s env st t ip pair st2 h
  have hc2 := CreateTokenPair_ok _ _ _ _ _ _ _ hc
  obtain ⟨tokenBytes, salt, _, _, _, hany, ht, hst⟩ := createRefreshToken_ok _ _ _ _ _ _ _ hc2
  have hfind := (GetRefreshToken_ok _ _ _ _ hget).2
  have hrid := find_ID _ _ _ hfind
  have hmf := find_markedRows st.storage id id
  rw [hfind] at hmf
  simp only [Option.map_some', hrid, if_true] at hmf
  have hne : env.newID ≠ id := by
    intro heq
    simp only [List.any_eq_false, decide_eq_true_eq] at hany
    have hm := List.mem_of_find?_eq_some hmf
    exact hany _ hm (by simp [heq])
  refine ⟨id, sec, r, tokenBytes, hdec, hget, hrid, hne, ht, ?_⟩
  rw [hst]
  simp only []
  rw [find_append_new _ _ _ hany]
  simp only [hne, if_false, hrid]
  exact hmf


/-! ## One changed byte in an issued token -/

/-- A string one byte away from an issued refresh token, whose decoded secret a
stored row under its decoded identifier accepts, decodes to the identifier and
the secret text of the token, when the only row that accepts the issued secret
is the row of the token. -/
theorem accepted_one_byte_change (s : Service) (env0 : Env) (st0 : State)
    (userID : UUID) (ip0 : Str) (pair : TokenPair) (st1 : State) (hwf : env0.WF)
    (hcreate : CreateTokenPair s env0 st0 userID ip0 = (.ok pair, st1))
    (calls : List Call)
    (hsecret : ∀ id sec, decodeRefreshToken pair.RefreshToken = some (id, sec) →
      ∀ r ∈ (run s st1 calls).storage, CompareHashAndPassword r.TokenHash sec = true → r.ID = id)
    (t1 : Str) (hdiff : OneByteDiff pair.RefreshToken t1)
    (getErr : Bool) (id1 : UUID) (sec1 : Str) (r : RefreshToken)
    (hdec1 : decodeRefreshToken t1 = some (id1, sec1))
    (hget : GetRefreshToken (run s st1 calls).storage getErr id1 = .ok r)
    (hpw1 : r.TokenHash.password = sec1) :
    decodeRefreshToken t1 = decodeRefreshToken pair.RefreshToken := by
  -- the row that was issued, and what the token decodes to
  have hc := CreateTokenPair_ok _ _ _ _ _ _ _ hcreate
  obtain ⟨tokenBytes, salt, hrand, _, _, hany, ht, hst⟩ := createRefreshToken_ok _ _ _ _ _ _ _ hc
  have hlen : tokenBytes.length = 32 := by
    have := hwf.2
    rw [hrand] at this
    exact this.1
  have hdec0 : decodeRefreshToken pair.RefreshToken = some (env0.newID, EncodeToString tokenBytes) := by
    rw [ht]; exact decodeRefreshToken_encode _ hwf.1 tokenBytes
  have hfind1 : st1.storage.find? (fun x => decide (x.ID = env0.newID)) = some
      { ID := env0.newID, UserID := userID,
        TokenHash := { salt := salt, password := EncodeToString tokenBytes },
        IssuedAt := env0.issuedNow, ExpiresAt := env0.expiresNow + s.refreshTTL,
        IssuedIP := ip0, IsUsed := false, CreatedAt := env0.dbNow } := by
    rw [hst]
    simp only []
    rw [find_append_new _ _ _ hany]
    simp
  obtain ⟨ra, hfa, hra⟩ := Keeps_run s calls st1 _ _ hfind1
  have hpw : ra.TokenHash.password = EncodeToString tokenBytes := by
    rcases hra with e | e <;> rw [e]
  have hfind := (GetRefreshToken_ok _ _ _ _ hget).2
  rw [ht] at hdiff
  rw [hdec1, hdec0]
  rcases decodeRefreshToken_one_byte env0.newID hwf.1 tokenBytes hlen t1 hdiff id1 sec1 hdec1
    with hid | hsec
  · -- the same identifier: the row is the issued one, so the secret is the issued one
    subst hid
    rw [hfa] at hfind
    have hr : ra = r := Option.some.inj hfind
    rw [← hpw1, ← hr, hpw]
  · -- the same secret: the row that accepts it is the issued one
    have hrid := find_ID _ _ _ hfind
    have hmem := List.mem_of_find?_eq_some hfind
    have := hsecret env0.newID (EncodeToString tokenBytes) hdec0 r hmem
      (by simp [CompareHashAndPassword, hpw1, hsec])
    rw [hsec, ← hrid, this]

theorem GetRefreshToken_error (db : Storage) (dbErr : Bool) (id : UUID) (e : Err)
    (h : GetRefreshToken db dbErr id = .error e) : e = .refreshTokenNotFound ∨ e = .driver := by
  unfold GetRefreshToken at h
  cases dbErr with
  | true => simp at h; exact Or.inr h.symm
  | false =>
    cases hf : db.find? (fun x => decide (x.ID = id)) with
    | none => simp [hf] at h; exact Or.inl h.symm
    | some r => simp [hf] at h

/-! ## The claims -/

/-- C1, amended. A refresh token issued by `CreateTokenPair`, then any calls,
in a store where the only row whose hash accepts the issued secret is the row
of the token, and a string that differs from the token in exactly one byte.
`RefreshTokens` rotates the string only if it still decodes to the identifier
and the secret text of the token. If it does not, `RefreshTokens` fails and
leaves the state as it was, and the error is `ErrInvalidToken`, the `refresh
token not found` or driver error of the lookup, `ErrTokenExpired` or
`ErrTokenUsed`. -/
theorem one_byte_change_rotates_only_same_pair (s : Service) (env0 : Env) (st0 : State)
    (userID : UUID) (ip0 : Str) (pair : TokenPair) (st1 : State) (hwf : env0.WF)
    (hcreate : CreateTokenPair s env0 st0 userID ip0 = (.ok pair, st1))
    (calls : List Call)
    (hsecret : ∀ id sec, decodeRefreshToken pair.RefreshToken = some (id, sec) →
      ∀ r ∈ (run s st1 calls).storage, CompareHashAndPassword r.TokenHash sec = true → r.ID = id)
    (t1 : Str) (hdiff : OneByteDiff pair.RefreshToken t1) (env1 : Env) (ip1 : Str) :
    (∀ pair1 st2, RefreshTokens s env1 (run s st1 calls) t1 ip1 = (.ok pair1, st2) →
      decodeRefreshToken t1 = decodeRefreshToken pair.RefreshToken) ∧
    (decodeRefreshToken t1 ≠ decodeRefreshToken pair.RefreshToken →
      ∃ e, RefreshTokens s env1 (run s st1 calls) t1 ip1 = (.error e, run s st1 calls) ∧
        (e = .ErrInvalidToken ∨ e = .refreshTokenNotFound ∨ e = .driver ∨
          e = .ErrTokenExpired ∨ e = .ErrTokenUsed)) := by
  have hacc := accepted_one_byte_change s env0 st0 userID ip0 pair st1 hwf hcreate calls hsecret
    t1 hdiff env1.getErr
  constructor
  · intro pair1 st2 hok
    obtain ⟨id1, sec1, r, hdec1, hget, _, _, hpw1, _⟩ := RefreshTokens_ok _ _ _ _ _ _ _ hok
    exact hacc id1 sec1 r hdec1 hget hpw1
  · intro hne
    rcases RefreshTokens_cases s env1 (run s st1 calls) t1 ip1 with ⟨_, hr⟩ | ⟨id1, sec1, hd, hc⟩
    · exact ⟨_, hr, Or.inl rfl⟩
    · rcases hc with ⟨e, hge, hr⟩ | ⟨r, hg, hc⟩
      · refine ⟨e, hr, ?_⟩
        rcases GetRefreshToken_error _ _ _ _ hge with h | h
        · exact Or.inr (Or.inl h)
        · exact Or.inr (Or.inr (Or.inl h))
      · rcases hc with ⟨_, hr⟩ | ⟨_, _, hr⟩ | ⟨_, _, _, hr⟩ | ⟨_, _, hpw, _⟩
        · exact ⟨_, hr, Or.inr (Or.inr (Or.inr (Or.inl rfl)))⟩
        · exact ⟨_, hr, Or.inr (Or.inr (Or.inr (Or.inr rfl)))⟩
        · exact ⟨_, hr, Or.inl rfl⟩
        · exact absurd (hacc id1 sec1 r hd hg hpw) hne

/-- C1 at `exToken`: replacing its first byte `Y` by `Q` turns the `a` of the
identifier text into `A`; `uuid.Parse` reads the same identifier, the secret is
untouched, and the rotation succeeds. -/
theorem tampered_token_rotates :
    CreateTokenPair exService exEnv exEmpty exUser exIP1 = (.ok exPair, exIssued) ∧
      OneByteDiff exPair.RefreshToken exTampered ∧
      DecodeString exTampered = some (65 :: (exID.String ++ [58] ++ exSecret).tail) ∧
      RefreshTokens exService exEnv2 exIssued exTampered exIP2 = (.ok exPair2, exRotated) :=
  ⟨by decide, ⟨[], 89, 81, exTokenTail, rfl, rfl, by decide⟩, by decide, by decide⟩

/-- C1, amended, at `exToken` and `exTamperedSecret`, whose last byte `9` was
replaced by `8`: the secret text it decodes to ends in `<` instead of `=`, and
the refresh fails with `ErrInvalidToken`. -/
theorem one_byte_change_rotates_only_same_pair_witness :
    decodeRefreshToken exTamperedSecret ≠ decodeRefreshToken exPair.RefreshToken ∧
      RefreshTokens exService exEnv2 exIssued exTamperedSecret exIP2 =
        (.error .ErrInvalidToken, exIssued) ∧
      ((∀ pair1 st2, RefreshTokens exService exEnv2 (run exService exIssued []) exTamperedSecret
            exIP2 = (.ok pair1, st2) →
          decodeRefreshToken exTamperedSecret = decodeRefreshToken exPair.RefreshToken) ∧
        (decodeRefreshToken exTamperedSecret ≠ decodeRefreshToken exPair.RefreshToken →
          ∃ e, RefreshTokens exService exEnv2 (run exService exIssued []) exTamperedSecret exIP2 =
              (.error e, run exService exIssued []) ∧
            (e = .ErrInvalidToken ∨ e = .refreshTokenNotFound ∨ e = .driver ∨
              e = .ErrTokenExpired ∨ e = .ErrTokenUsed))) :=
  ⟨by decide, by decide,
    one_byte_change_rotates_only_same_pair exService exEnv exEmpty exUser exIP1 exPair exIssued
      (by decide) (by decide) []
      (by
        intro id sec hd r hr _
        have he : decodeRefreshToken exPair.RefreshToken = some (exID, exSecret) := by decide
        rw [he] at hd
        simp only [Option.some.injEq, Prod.mk.injEq] at hd
        have hr1 : r = exRow := by simpa [run, exIssued] using hr
        rw [hr1, ← hd.1]
        rfl)
      exTamperedSecret ⟨exToken.dropLast, 57, 56, [], by decide, rfl, by decide⟩ exEnv2 exIP2⟩

/-- C2. A refresh token issued by `CreateTokenPair`, then any calls, then a
first successful `RefreshTokens` of it, then any calls: every later
`RefreshTokens` of the same string fails and leaves the state as it is; the
error is `ErrTokenUsed`, `ErrTokenExpired` or a driver error, and it is
`ErrTokenUsed` whenever the lookup is answered and the time of the call is not
past the expiry of the record. -/
theorem used_token_cannot_rotate_again (s : Service) (env0 : Env) (st0 : State)
    (userID : UUID) (ip0 : Str) (pair : TokenPair) (st1 : State) (hwf : env0.WF)
    (hcreate : CreateTokenPair s env0 st0 userID ip0 = (.ok pair, st1))
    (between : List Call) (env1 : Env) (ip1 : Str) (pair1 : TokenPair) (st2 : State)
    (hfirst : RefreshTokens s env1 (run s st1 between) pair.RefreshToken ip1 = (.ok pair1, st2))
    (later : List Call) (env2 : Env) (ip2 : Str) :
    ∃ e, RefreshTokens s env2 (run s st2 later) pair.RefreshToken ip2 =
        (.error e, run s st2 later) ∧
      (e = .ErrTokenUsed ∨ e = .ErrTokenExpired ∨ e = .driver) ∧
      (env2.getErr = false → env2.now ≤ env0.expiresNow + s.refreshTTL → e = .ErrTokenUsed) := by
  -- the row that was issued
  have hc := CreateTokenPair_ok _ _ _ _ _ _ _ hcreate
  obtain ⟨tokenBytes, salt, _, _, _, hany, ht, hst⟩ := createRefreshToken_ok _ _ _ _ _ _ _ hc
  have hdec0 : decodeRefreshToken pair.RefreshToken = some (env0.newID, EncodeToString tokenBytes) := by
    rw [ht]; exact decodeRefreshToken_encode _ hwf.1 tokenBytes
  have hfind1 : st1.storage.find? (fun x => decide (x.ID = env0.newID)) = some
      { ID := env0.newID, UserID := userID,
        TokenHash := { salt := salt, password := EncodeToString tokenBytes },
        IssuedAt := env0.issuedNow, ExpiresAt := env0.expiresNow + s.refreshTTL,
        IssuedIP := ip0, IsUsed := false, CreatedAt := env0.dbNow } := by
    rw [hst]
    simp only []
    rw [find_append_new _ _ _ hany]
    simp
  -- it is still there at the first refresh
  obtain ⟨ra, hfa, hra⟩ := Keeps_run s between st1 _ _ hfind1
  -- the first refresh sets its used flag
  obtain ⟨id, sec, r, _, hdec1, hget1, _, _, _, hfind2⟩ :=
    RefreshTokens_ok_used _ _ _ _ _ _ _ hfirst
  rw [hdec0] at hdec1
  simp only [Option.some.injEq, Prod.mk.injEq] at hdec1
  obtain ⟨hid, _⟩ := hdec1
  subst hid
  have hra2 : r = ra := by
    have := (GetRefreshToken_ok _ _ _ _ hget1).2
    rw [hfa] at this
    exact (Option.some.inj this).symm
  -- and it stays set
  obtain ⟨rb, hfb, hrb⟩ := Keeps_run s later st2 _ _ hfind2
  have hused : rb.IsUsed = true := by rcases hrb with e | e <;> rw [e]
  have hexp : rb.ExpiresAt = env0.expiresNow + s.refreshTTL := by
    rcases hrb with e | e <;> rcases hra with e1 | e1 <;> rw [e, hra2, e1]
  -- the later refresh
  rcases RefreshTokens_cases s env2 (run s st2 later) pair.RefreshToken ip2 with
    ⟨hn, _⟩ | ⟨id3, sec3, hd3, hc3⟩
  · rw [hdec0] at hn; simp at hn
  · rw [hdec0] at hd3
    simp only [Option.some.injEq, Prod.mk.injEq] at hd3
    obtain ⟨hid3, _⟩ := hd3
    subst hid3
    rcases hc3 with ⟨e, hge, hr⟩ | ⟨r3, hg3, hc3⟩
    · refine ⟨e, hr, ?_, ?_⟩
      · right; right
        unfold GetRefreshToken at hge
        cases hE : env2.getErr with
        | true => simp [hE] at hge; exact hge.symm
        | false => simp [hE, hfb] at hge
      · intro hE
        unfold GetRefreshToken at hge
        simp [hE, hfb] at hge
    · have h3 : r3 = rb := by
        have := (GetRefreshToken_ok _ _ _ _ hg3).2
        rw [hfb] at this
        exact (Option.some.inj this).symm
      rcases hc3 with ⟨hlt, hr⟩ | ⟨_, _, hr⟩ | ⟨_, hu, _⟩ | ⟨_, hu, _⟩
      · refine ⟨_, hr, Or.inr (Or.inl rfl), ?_⟩
        intro _ hle
        rw [h3, hexp] at hlt
        omega
      · exact ⟨_, hr, Or.inl rfl, fun _ _ => rfl⟩
      · rw [h3, hused] at hu; simp at hu
      · rw [h3, hused] at hu; simp at hu


/-- C2 at `exToken`: issued under `exEnv`, rotated under `exEnv2`, replayed once,
and replayed again at time 50, before its expiry at 3610. -/
theorem used_token_cannot_rotate_again_witness :
    ∃ e, RefreshTokens exService exEnv2
          (run exService exRotated [Call.refresh exEnv2 exToken exIP2]) exPair.RefreshToken exIP1 =
        (.error e, run exService exRotated [Call.refresh exEnv2 exToken exIP2]) ∧
      (e = .ErrTokenUsed ∨ e = .ErrTokenExpired ∨ e = .driver) ∧
      (exEnv2.getErr = false → exEnv2.now ≤ exEnv.expiresNow + exService.refreshTTL →
        e = .ErrTokenUsed) :=
  used_token_cannot_rotate_again exService exEnv exEmpty exUser exIP1 exPair exIssued
    (by decide) (by decide) [] exEnv2 exIP2 exPair2 exRotated (by decide)
    [Call.refresh exEnv2 exToken exIP2] exEnv2 exIP1

/-- C3, amended. A well-formed refresh-token string whose identifier has no
record in the store: `RefreshTokens` fails with the error the storage returned,
which is `refresh token not found` when the driver answered; it is never
`ErrInvalidToken`, and the state is as it was. -/
theorem unknown_identifier_reports_storage_error (s : Service) (env : Env) (st : State)
    (t ip : Str) (id : UUID) (sec : Str)
    (hdec : decodeRefreshToken t = some (id, sec))
    (hno : ∀ r ∈ st.storage, r.ID ≠ id) :
    ∃ e, GetRefreshToken st.storage env.getErr id = .error e ∧
      RefreshTokens s env st t ip = (.error e, st) ∧ e ≠ .ErrInvalidToken ∧
      (env.getErr = false → e = .refreshTokenNotFound) := by
  have hf : st.storage.find? (fun x => decide (x.ID = id)) = none := by
    rw [List.find?_eq_none]
    intro x hx
    simpa using hno x hx
  rw [RefreshTokens_of_decode_some s env st t ip id sec hdec]
  cases hE : env.getErr with
  | true => exact ⟨.driver, by simp [GetRefreshToken], by simp [GetRefreshToken], by simp, by simp⟩
  | false =>
    exact ⟨.refreshTokenNotFound, by simp [GetRefreshToken, hf], by simp [GetRefreshToken, hf],
      by simp, by simp⟩

/-- C3 at `exToken` and the empty store: the string is well formed, no row has
its identifier, and the error is `refresh token not found`, not `ErrInvalidToken`. -/
theorem unknown_identifier_not_invalid_token :
    decodeRefreshToken exToken = some (exID, exSecret) ∧
      (∀ r ∈ exEmpty.storage, r.ID ≠ exID) ∧
      RefreshTokens exService exEnv2 exEmpty exToken exIP2 =
        (.error .refreshTokenNotFound, exEmpty) ∧
      (RefreshTokens exService exEnv2 exEmpty exToken exIP2).1 ≠ .error .ErrInvalidToken := by
  decide

/-- C3, amended, at `exToken` and the empty store. -/
theorem unknown_identifier_reports_storage_error_witness :
    ∃ e, GetRefreshToken exEmpty.storage exEnv2.getErr exID = .error e ∧
      RefreshTokens exService exEnv2 exEmpty exToken exIP2 = (.error e, exEmpty) ∧
      e ≠ .ErrInvalidToken ∧ (exEnv2.getErr = false → e = .refreshTokenNotFound) :=
  unknown_identifier_reports_storage_error exService exEnv2 exEmpty exToken exIP2 exID exSecret
    (by decide) (by decide)

/-- C4. A record that is past its expiry and has its used flag set: for every
string that decodes to its identifier, whatever secret the string carries,
`RefreshTokens` fails with `ErrTokenExpired` (not `ErrTokenUsed`) and leaves the
state as it was. -/
theorem expired_and_used_reports_expired (s : Service) (env : Env) (st : State) (t ip : Str)
    (id : UUID) (sec : Str) (r : RefreshToken)
    (hdec : decodeRefreshToken t = some (id, sec))
    (hget : GetRefreshToken st.storage env.getErr id = .ok r)
    (hexp : env.now > r.ExpiresAt) (_hused : r.IsUsed = true) :
    RefreshTokens s env st t ip = (.error .ErrTokenExpired, st) ∧
      (RefreshTokens s env st t ip).1 ≠ .error .ErrTokenUsed := by
  rw [RefreshTokens_of_decode_some s env st t ip id sec hdec, hget]
  simp [hexp]

/-- C4 at the used row of `exToken`, read at time 9000. -/
theorem expired_and_used_reports_expired_witness :
    RefreshTokens exService exEnvLate exUsed exToken exIP2 = (.error .ErrTokenExpired, exUsed) ∧
      (RefreshTokens exService exEnvLate exUsed exToken exIP2).1 ≠ .error .ErrTokenUsed :=
  expired_and_used_reports_expired exService exEnvLate exUsed exToken exIP2 exID exSecret
    { exRow with IsUsed := true } (by decide) (by decide) (by decide) (by decide)

/-- C5. The string `createRefreshToken` returns for the identifier and the random
bytes it drew is the base64url text of `id:secret`; it decodes, the split on `:`
gives exactly the two parts `id` text and secret text, and the decoded pair is
the identifier and the very text that was hashed into the stored row. -/
theorem refresh_token_round_trip (s : Service) (env : Env) (st : State) (userID : UUID)
    (ip : Str) (t : Str) (st1 : State) (hwf : env.WF)
    (h : createRefreshToken s env st userID ip = (.ok t, st1)) :
    ∃ tokenBytes salt, env.randBytes = some tokenBytes ∧
      DecodeString t = some (env.newID.String ++ [58] ++ EncodeToString tokenBytes) ∧
      Split 58 (env.newID.String ++ [58] ++ EncodeToString tokenBytes) =
        [env.newID.String, EncodeToString tokenBytes] ∧
      Parse env.newID.String = some env.newID ∧
      decodeRefreshToken t = some (env.newID, EncodeToString tokenBytes) ∧
      GetRefreshToken st1.storage false env.newID = .ok
        { ID := env.newID, UserID := userID,
          TokenHash := { salt := salt, password := EncodeToString tokenBytes },
          IssuedAt := env.issuedNow, ExpiresAt := env.expiresNow + s.refreshTTL,
          IssuedIP := ip, IsUsed := false, CreatedAt := env.dbNow } := by
  obtain ⟨tokenBytes, salt, hr, _, _, hany, ht, hst⟩ := createRefreshToken_ok s env st userID ip t st1 h
  refine ⟨tokenBytes, salt, hr, ?_, ?_, Parse_String _ hwf.1, ?_, ?_⟩
  · rw [ht]
    apply DecodeString_EncodeToString
    intro b hb
    simp only [List.mem_append, List.mem_singleton] at hb
    rcases hb with (hb | hb) | hb
    · exact String_lt _ hwf.1.2 b hb
    · omega
    · exact EncodeToString_lt _ b hb
  · rw [List.append_assoc, List.singleton_append,
      Split_append 58 _ _ (colon_not_mem_String _),
      Split_no_sep 58 _ (colon_not_mem_EncodeToString tokenBytes)]
  · rw [ht]
    exact decodeRefreshToken_encode _ hwf.1 tokenBytes
  · rw [hst]
    apply GetRefreshToken_of_find
    rw [find_append_new _ _ _ hany]
    simp

/-- C5 at the issue under `exEnv`. -/
theorem refresh_token_round_trip_witness :
    exEnv.WF ∧ createRefreshToken exService exEnv exEmpty exUser exIP1 = (.ok exToken, exIssued) ∧
      decodeRefreshToken exToken = some (exID, exSecret) :=
  ⟨by decide, by decide, by
    obtain ⟨tokenBytes, _, hr, _, _, _, hd, _⟩ :=
      refresh_token_round_trip exService exEnv exEmpty exUser exIP1 exToken exIssued
        (by decide) (by decide)
    have hb : tokenBytes = List.replicate 32 7 := by
      have : exEnv.randBytes = some (List.replicate 32 7) := rfl
      rw [hr] at this
      exact Option.some.inj this
    rw [hd, hb]
    decide⟩

/-- C6. After a successful `CreateTokenPair(userID, ip)` the returned refresh
token decodes to an identifier whose row is in the store, with the used flag
unset, `IssuedIP = ip` and `UserID = userID`. -/
theorem created_token_is_stored (s : Service) (env : Env) (st : State) (userID : UUID)
    (ip : Str) (pair : TokenPair) (st1 : State) (hwf : env.WF)
    (h : CreateTokenPair s env st userID ip = (.ok pair, st1)) :
    ∃ id sec r, decodeRefreshToken pair.RefreshToken = some (id, sec) ∧
      GetRefreshToken st1.storage false id = .ok r ∧ r ∈ st1.storage ∧ r.ID = id ∧
      r.IsUsed = false ∧ r.IssuedIP = ip ∧ r.UserID = userID := by
  have hc := CreateTokenPair_ok s env st userID ip pair st1 h
  obtain ⟨tokenBytes, salt, _, _, _, hany, ht, hst⟩ := createRefreshToken_ok _ _ _ _ _ _ _ hc
  have hfind : st1.storage.find? (fun x => decide (x.ID = env.newID)) = some
      { ID := env.newID, UserID := userID,
        TokenHash := { salt := salt, password := EncodeToString tokenBytes },
        IssuedAt := env.issuedNow, ExpiresAt := env.expiresNow + s.refreshTTL,
        IssuedIP := ip, IsUsed := false, CreatedAt := env.dbNow } := by
    rw [hst]
    simp only []
    rw [find_append_new _ _ _ hany]
    simp
  refine ⟨env.newID, EncodeToString tokenBytes, _, ?_, GetRefreshToken_of_find _ _ _ hfind,
    List.mem_of_find?_eq_some hfind, rfl, rfl, rfl, rfl⟩
  rw [ht]
  exact decodeRefreshToken_encode _ hwf.1 tokenBytes

/-- C6 at the issue under `exEnv`. -/
theorem created_token_is_stored_witness :
    ∃ id sec r, decodeRefreshToken exPair.RefreshToken = some (id, sec) ∧
      GetRefreshToken exIssued.storage false id = .ok r ∧ r ∈ exIssued.storage ∧ r.ID = id ∧
      r.IsUsed = false ∧ r.IssuedIP = exIP1 ∧ r.UserID = exUser :=
  created_token_is_stored exService exEnv exEmpty exUser exIP1 exPair exIssued
    (by decide) (by decide)

theorem createRefreshToken_error (s : Service) (env : Env) (st : State) (userID : UUID)
    (ip : Str) (e : Err) (st1 : State)
    (h : createRefreshToken s env st userID ip = (.error e, st1)) :
    e = .randRead ∨ e = .bcrypt ∨ e = .driver := by
  unfold createRefreshToken at h
  cases hr : env.randBytes with
  | none => simp [hr] at h; simp [← h.1]
  | some tokenBytes =>
    cases hs : env.salt with
    | none => simp [hr, hs] at h; simp [← h.1]
    | some salt =>
      simp only [hr, hs, SaveRefreshToken] at h
      by_cases he : env.saveErr = true
      · simp [he] at h; simp [← h.1]
      · by_cases ha : st.storage.any (fun r => decide (r.ID = env.newID)) = true
        · simp [he, ha] at h; simp [← h.1]
        · simp [he, ha] at h

theorem CreateTokenPair_error (s : Service) (env : Env) (st : State) (userID : UUID)
    (ip : Str) (e : Err) (st1 : State)
    (h : CreateTokenPair s env st userID ip = (.error e, st1)) :
    e = .signing ∨ e = .randRead ∨ e = .bcrypt ∨ e = .driver := by
  unfold CreateTokenPair at h
  cases ha : createAccessToken s env userID ip with
  | error e1 =>
    simp only [ha, Prod.mk.injEq, Except.error.injEq] at h
    unfold createAccessToken at ha
    by_cases hs : env.signErr = true
    · simp [hs] at ha; left; rw [← h.1, ← ha]
    · simp [hs] at ha
  | ok a =>
    rw [ha] at h
    rcases hc : createRefreshToken s env st userID ip with ⟨r, st2⟩
    rw [hc] at h
    cases r with
    | error e2 =>
      simp only [Prod.mk.injEq, Except.error.injEq] at h
      right
      rw [← h.1]
      exact createRefreshToken_error s env st userID ip e2 st2 hc
    | ok t => simp at h

/-- C7. A successful `RefreshTokens(t, ip)` on the record `r`: when `ip` differs
from `r.IssuedIP` exactly one call `(r.UserID, r.IssuedIP, ip)` is added to the
calls of the notification port, and when `ip` equals `r.IssuedIP` none is. -/
theorem ip_change_notifies_once (s : Service) (env : Env) (st : State) (t ip : Str)
    (pair : TokenPair) (st2 : State) (h : RefreshTokens s env st t ip = (.ok pair, st2)) :
    ∃ id sec r, decodeRefreshToken t = some (id, sec) ∧
      GetRefreshToken st.storage env.getErr id = .ok r ∧
      (ip ≠ r.IssuedIP → st2.outbox = st.outbox ++ [(r.UserID, r.IssuedIP, ip)]) ∧
      (ip = r.IssuedIP → st2.outbox = st.outbox) := by
  obtain ⟨id, sec, r, hdec, hget, _, _, _, hc⟩ := RefreshTokens_ok s env st t ip pair st2 h
  have hc2 := CreateTokenPair_ok _ _ _ _ _ _ _ hc
  obtain ⟨_, _, _, _, _, _, _, hst⟩ := createRefreshToken_ok _ _ _ _ _ _ _ hc2
  refine ⟨id, sec, r, hdec, hget, ?_, ?_⟩
  · intro hne; rw [hst]; simp [hne]
  · intro heq; rw [hst]; simp [heq]

/-- C7 at the rotation of `exToken`, issued at `1.1.1.1`, from `2.2.2.2`. -/
theorem ip_change_notifies_once_witness :
    ∃ id sec r, decodeRefreshToken exToken = some (id, sec) ∧
      GetRefreshToken exIssued.storage exEnv2.getErr id = .ok r ∧
      (exIP2 ≠ r.IssuedIP → exRotated.outbox = exIssued.outbox ++ [(r.UserID, r.IssuedIP, exIP2)]) ∧
      (exIP2 = r.IssuedIP → exRotated.outbox = exIssued.outbox) :=
  ip_change_notifies_once exService exEnv2 exIssued exToken exIP2 exPair2 exRotated (by decide)

/-- C8. Whenever `RefreshTokens` fails with `ErrInvalidToken`, `ErrTokenExpired`
or `ErrTokenUsed`, the state after the call is the state before it: no row is
added, no used flag is set, no notification is sent. -/
theorem rejected_refresh_leaves_state (s : Service) (env : Env) (st : State) (t ip : Str)
    (e : Err) (st2 : State) (h : RefreshTokens s env st t ip = (.error e, st2))
    (he : e = .ErrInvalidToken ∨ e = .ErrTokenExpired ∨ e = .ErrTokenUsed) :
    st2 = st ∧ st2.storage = st.storage := by
  suffices hs : st2 = st from ⟨hs, by rw [hs]⟩
  rcases RefreshTokens_cases s env st t ip with ⟨_, hr⟩ | ⟨id, sec, _, hc⟩
  · rw [hr] at h; simp only [Prod.mk.injEq] at h; exact h.2.symm
  · rcases hc with ⟨e1, _, hr⟩ | ⟨r, _, hc⟩
    · rw [hr] at h; simp only [Prod.mk.injEq] at h; exact h.2.symm
    · rcases hc with ⟨_, hr⟩ | ⟨_, _, hr⟩ | ⟨_, _, _, hr⟩ | ⟨_, _, _, hr⟩
      · rw [hr] at h; simp only [Prod.mk.injEq] at h; exact h.2.symm
      · rw [hr] at h; simp only [Prod.mk.injEq] at h; exact h.2.symm
      · rw [hr] at h; simp only [Prod.mk.injEq] at h; exact h.2.symm
      · exfalso
        rw [hr] at h
        cases hm : env.markErr with
        | true =>
          simp only [hm, if_true, Prod.mk.injEq, Except.error.injEq] at h
          rcases he with he | he | he <;> simp [he] at h
        | false =>
          simp only [hm, Bool.false_eq_true, if_false] at h
          have := CreateTokenPair_error _ _ _ _ _ _ _ h
          rcases he with he | he | he <;> simp [he] at this

/-- C8 at a replay of `exToken` on its used row. -/
theorem rejected_refresh_leaves_state_witness :
    RefreshTokens exService exEnv2 exUsed exToken exIP2 = (.error .ErrTokenUsed, exUsed) ∧
      exUsed = exUsed ∧ exUsed.storage = exUsed.storage :=
  ⟨by decide,
    rejected_refresh_leaves_state exService exEnv2 exUsed exToken exIP2 .ErrTokenUsed exUsed
      (by decide) (by decide)⟩

/-- C9. Every successful `RefreshTokens` returns a refresh token whose
identifier differs from the identifier of the token it consumed, whatever the
identifier generator returned, and the row of the consumed token has its used
flag set afterwards. -/
theorem rotation_issues_new_identifier (s : Service) (env : Env) (st : State) (t ip : Str)
    (pair : TokenPair) (st2 : State) (hwf : env.WF)
    (h : RefreshTokens s env st t ip = (.ok pair, st2)) :
    ∃ id sec id1 sec1 r, decodeRefreshToken t = some (id, sec) ∧
      decodeRefreshToken pair.RefreshToken = some (id1, sec1) ∧ id1 ≠ id ∧
      GetRefreshToken st2.storage false id = .ok r ∧ r.IsUsed = true := by
  obtain ⟨id, sec, r, hdec, hget, _, _, _, hc⟩ := RefreshTokens_ok s env st t ip pair st2 h
  have hc2 := CreateTokenPair_ok _ _ _ _ _ _ _ hc
  obtain ⟨tokenBytes, salt, _, _, _, hany, ht, hst⟩ := createRefreshToken_ok _ _ _ _ _ _ _ hc2
  have hfind := (GetRefreshToken_ok _ _ _ _ hget).2
  have hrid := find_ID _ _ _ hfind
  have hmf := find_markedRows st.storage id id
  rw [hfind] at hmf
  simp only [Option.map_some', hrid, if_true] at hmf
  have hne : env.newID ≠ id := by
    intro heq
    simp only [List.any_eq_false, decide_eq_true_eq] at hany
    have hm := List.mem_of_find?_eq_some hmf
    exact hany _ hm (by simp [hrid, heq])
  refine ⟨id, sec, env.newID, EncodeToString tokenBytes, { r with IsUsed := true }, hdec, ?_, hne,
    ?_, rfl⟩
  · rw [ht]; exact decodeRefreshToken_encode _ hwf.1 tokenBytes
  · rw [hst]
    apply GetRefreshToken_of_find
    simp only []
    rw [find_append_new _ _ _ hany]
    simp only [hne, if_false, hrid]
    exact hmf

/-- C9 at the rotation of `exToken` under `exEnv2`. -/
theorem rotation_issues_new_identifier_witness :
    ∃ id sec id1 sec1 r, decodeRefreshToken exToken = some (id, sec) ∧
      decodeRefreshToken exPair2.RefreshToken = some (id1, sec1) ∧ id1 ≠ id ∧
      GetRefreshToken exRotated.storage false id = .ok r ∧ r.IsUsed = true :=
  rotation_issues_new_identifier exService exEnv2 exIssued exToken exIP2 exPair2 exRotated
    (by decide) (by decide)

/-- C10, amended. With a positive refresh TTL and clock readings that do not go
back, the row `createRefreshToken` inserts has `ExpiresAt > IssuedAt`. -/
theorem positive_ttl_expires_after_issue (s : Service) (env : Env) (st : State) (userID : UUID)
    (ip : Str) (t : Str) (st1 : State) (httl : 0 < s.refreshTTL)
    (hclock : env.issuedNow ≤ env.expiresNow)
    (h : createRefreshToken s env st userID ip = (.ok t, st1)) :
    ∃ r, st1.storage = st.storage ++ [r] ∧ r.ID = env.newID ∧
      r.IssuedAt = env.issuedNow ∧ r.ExpiresAt = env.expiresNow + s.refreshTTL ∧
      r.ExpiresAt > r.IssuedAt := by
  obtain ⟨tokenBytes, salt, _, _, _, _, _, hst⟩ := createRefreshToken_ok s env st userID ip t st1 h
  refine ⟨_, by rw [hst], rfl, rfl, rfl, ?_⟩
  simp only []
  omega

/-- C10 with a refresh TTL that is not positive. With a TTL of zero and two
equal clock readings the inserted row has `ExpiresAt = IssuedAt`; with a
negative TTL and increasing clock readings it has `ExpiresAt < IssuedAt`. -/
theorem nonpositive_ttl_does_not_expire_after_issue :
    (exEnv.issuedNow ≤ exEnv.expiresNow ∧
      createRefreshToken exZeroTTL exEnv exEmpty exUser exIP1 =
        (.ok exToken, { storage := [{ exRow with ExpiresAt := 10 }], outbox := [] }) ∧
      ¬ ({ exRow with ExpiresAt := 10 } : RefreshToken).ExpiresAt >
          ({ exRow with ExpiresAt := 10 } : RefreshToken).IssuedAt) ∧
    (exEnvTick.issuedNow < exEnvTick.expiresNow ∧
      createRefreshToken exNegativeTTL exEnvTick exEmpty exUser exIP1 =
        (.ok exToken, { storage := [{ exRow with ExpiresAt := -3589 }], outbox := [] }) ∧
      ({ exRow with ExpiresAt := -3589 } : RefreshToken).ExpiresAt <
          ({ exRow with ExpiresAt := -3589 } : RefreshToken).IssuedAt) := by
  decide

/-- C10, amended, at the issue under `exEnv` with a refresh TTL of 3600. -/
theorem positive_ttl_expires_after_issue_witness :
    ∃ r, exIssued.storage = exEmpty.storage ++ [r] ∧ r.ID = exEnv.newID ∧
      r.IssuedAt = exEnv.issuedNow ∧ r.ExpiresAt = exEnv.expiresNow + exService.refreshTTL ∧
      r.ExpiresAt > r.IssuedAt :=
  positive_ttl_expires_after_issue exService exEnv exEmpty exUser exIP1 exToken exIssued
    (by decide) (by decide) (by decide)

end AuthGo
